import Mathlib

/-!
# midas: ingestion sweep, bootstrap and report of `main.go`

A shallow embedding of `src/main.go`.  The program keeps one global database
handle (`dbb`), one SQLite file (`store.db`) with the tables `address` and
`debank_api_results`, and talks to three collaborators: the file system, the
database driver and the DeBank HTTP endpoint.  Every call to a collaborator is
a primitive below; it appends one `Event` to the log of the world, so that
statements about which calls were made, in which order, and which of them
returned an error, can be read off the log.

The goroutine of the ticker and the HTTP server loop of `main` are not
modelled: the operations are the functions they call, run one at a time.
Two failures the program never looks at are left out: a result set that
breaks off in the middle (`rows.Next` returns false and `rows.Err` is never
consulted) and a failing write to the response.  The errors of `rows.Scan`,
which the program discards, are kept because they decide what a row holds.
-/

namespace Midas

/-! ## Data model -/

/-- A `time.Time` value, as a signed offset from the zero value of the type. -/
abbrev Time := Int

/-- The zero value of `time.Time` (what `var createdAt time.Time` holds). -/
def zeroTime : Time := 0

/-- The Go struct `Wallet`; `id` is a `uint32`. -/
structure Wallet where
  id : Nat
  address : String
deriving DecidableEq, Repr

/-- One row of table `address(id INTEGER PRIMARY KEY AUTOINCREMENT, address CHAR(42) UNIQUE)`. -/
structure AddressRow where
  id : Nat
  address : String
deriving DecidableEq, Repr

/-- One row of table `debank_api_results(id, data, create_at, address_id)`. -/
structure ResultRow where
  id : Nat
  data : String
  create_at : Time
  address_id : Nat
deriving DecidableEq, Repr

/-- Contents of the SQLite file.  A table is `none` until its `CREATE TABLE`
has run; the two counters are the `sqlite_sequence` entries that
`AUTOINCREMENT` maintains. -/
structure Store where
  address : Option (List AddressRow)
  addressSeq : Nat
  debank_api_results : Option (List ResultRow)
  resultsSeq : Nat
deriving DecidableEq, Repr

/-- An empty database file (what `os.Create` leaves, and what SQLite sees
when it opens a file that does not exist yet). -/
def Store.empty : Store := ⟨none, 0, none, 0⟩

/-- The calls the program makes to its collaborators. -/
inductive Call where
  | stat
  | create
  | sqlOpen
  | createAddress
  | createResults
  | insertAddress (address : String)
  | insertResult (data : String) (create_at : Time) (address_id : Nat)
  | selectWallets
  | selectReport
  | scan
  | rowsClose
  | httpGet (url : String)
  | readAll
  | now
deriving DecidableEq, Repr

/-- One call together with whether it returned an error. -/
structure Event where
  call : Call
  failed : Bool
deriving DecidableEq, Repr

/-- State of the process and of its surroundings.
* `dbb`: the global `dbb` is non-nil;
* `file`: contents of `store.db`, `none` when the file does not exist;
* `log`: every collaborator call made so far, oldest first;
* `resp`: the chunks written to the `http.ResponseWriter` of the request
  being served, oldest first. -/
structure World where
  dbb : Bool
  file : Option Store
  log : List Event
  resp : List String
deriving DecidableEq, Repr

/-- What `http.Get` hands back on success: reading `resp.Body` to its end
yields `body`, or fails when `body` is `none`. -/
structure Response where
  body : Option String
deriving DecidableEq, Repr

/-- The surroundings the program cannot control.
* `get url`: the outcome of `http.Get(url)`, `none` for an error;
* `fault k`: the file or database call made as event number `k` returns an
  error of its own (disk full, locked file, permission denied, ...);
* `now k`: what `time.Now()` returns when called as event number `k`;
* `format t`: the library function `t.Format(time.RFC850)`. -/
structure Env where
  get : String → Option Response
  fault : Nat → Bool
  now : Nat → Time
  format : Time → String

/-- How a function of the program ends: it returns, or `log.Fatal` ends the
process, or `panic` unwinds the goroutine. -/
inductive Outcome (α : Type) where
  | ok (a : α) (s : World)
  | fatal (s : World)
  | panic (s : World)
deriving DecidableEq, Repr

/-- The world in which a function ended. -/
def Outcome.state {α : Type} : Outcome α → World
  | .ok _ s => s
  | .fatal s => s
  | .panic s => s

/-- A function of the program: a world transformer that may not return. -/
def M (α : Type) : Type := World → Outcome α

/-- Sequencing: the second function runs only when the first returned. -/
def M.bind {α β : Type} (f : M α) (g : α → M β) : M β := fun s =>
  match f s with
  | .ok a s1 => g a s1
  | .fatal s1 => .fatal s1
  | .panic s1 => .panic s1

instance : Monad M where
  pure a := fun s => .ok a s
  bind := M.bind

/-- Go `log.Fatal(err)`: the process exits. -/
def logFatal {α : Type} : M α := fun s => .fatal s

/-- Go `panic(err)`. -/
def goPanic {α : Type} : M α := fun s => .panic s

/-- Go `for _, x := range xs` with a body that may not return. -/
def forEach {α : Type} : List α → (α → M Unit) → M Unit
  | [], _ => pure ()
  | x :: xs, f => f x >>= fun _ => forEach xs f

/-! ## Collaborator calls -/

/-- Append one event to the log. -/
def emit (c : Call) (failed : Bool) (s : World) : World :=
  { s with log := s.log ++ [⟨c, failed⟩] }

/-- The database the driver sees: SQLite opens the file with the create
flag, so a file that does not exist is an empty database. -/
def World.store (s : World) : Store := s.file.getD Store.empty

/-- Result of `os.Stat(dbName)` as the program inspects it. -/
inductive StatResult where
  | found
  | notExist
  | otherError
deriving DecidableEq, Repr

/-- Go `os.Stat(dbName)`. -/
def osStat (env : Env) : M StatResult := fun s =>
  if env.fault s.log.length then .ok .otherError (emit .stat true s)
  else match s.file with
    | some _ => .ok .found (emit .stat false s)
    | none => .ok .notExist (emit .stat true s)

/-- Go `os.Create(dbName)`: creates or truncates the file.  Returns `err != nil`. -/
def osCreate (env : Env) : M Bool := fun s =>
  if env.fault s.log.length then .ok true (emit .create true s)
  else .ok false (emit .create false { s with file := some Store.empty })

/-- The assignment `dbb, err = sql.Open(dbDriver, dbName)`.  Returns `err != nil`. -/
def sqlOpen (env : Env) : M Bool := fun s =>
  if env.fault s.log.length then .ok true (emit .sqlOpen true { s with dbb := false })
  else .ok false (emit .sqlOpen false { s with dbb := true })

/-- Go `db.Exec` of one statement whose effect on the database is `run`
(`none` when the statement itself is rejected).  Returns `err != nil`. -/
def dbExec (env : Env) (c : Call) (run : Store → Option Store) : M Bool := fun s =>
  if env.fault s.log.length then .ok true (emit c true s)
  else match run s.store with
    | some st => .ok false (emit c false { s with file := some st })
    | none => .ok true (emit c true { s with file := some s.store })

/-- Go `db.Query` of one statement whose result set is `run` (`none` when
the statement is rejected).  Returns the rows, or `none` when `err != nil`. -/
def dbQuery {ρ : Type} (env : Env) (c : Call) (run : Store → Option (List ρ)) :
    M (Option (List ρ)) := fun s =>
  if env.fault s.log.length then .ok none (emit c true s)
  else match run s.store with
    | some rows => .ok (some rows) (emit c false { s with file := some s.store })
    | none => .ok none (emit c true { s with file := some s.store })

/-- Go `rows.Close()`.  Returns `err != nil`. -/
def rowsClose (env : Env) : M Bool := fun s =>
  if env.fault s.log.length then .ok true (emit .rowsClose true s)
  else .ok false (emit .rowsClose false s)

/-- Go `http.Get(url)`. -/
def httpGet (env : Env) (url : String) : M (Option Response) := fun s =>
  match env.get url with
  | some r => .ok (some r) (emit (.httpGet url) false s)
  | none => .ok none (emit (.httpGet url) true s)

/-- Go `ioutil.ReadAll(resp.Body)`. -/
def readAll (r : Response) : M (Option String) := fun s =>
  match r.body with
  | some b => .ok (some b) (emit .readAll false s)
  | none => .ok none (emit .readAll true s)

/-- Go `time.Now()`. -/
def timeNow (env : Env) : M Time := fun s =>
  .ok (env.now s.log.length) (emit .now false s)

/-- Go `fmt.Fprintf(w, chunk)`; the error of the write is not looked at. -/
def write (chunk : String) : M Unit := fun s =>
  .ok () { s with resp := s.resp ++ [chunk] }

/-- Record that one `rows.Scan` ran and whether it returned an error. -/
def rowsScan (failed : Bool) : M Unit := fun s => .ok () (emit .scan failed s)

/-! ## SQL statements -/

/-- The largest `id` of a list of ids (0 for none). -/
def maxId : List Nat → Nat
  | [] => 0
  | x :: xs => max x (maxId xs)

/-- The key `AUTOINCREMENT` assigns: one more than the largest key ever used. -/
def nextId (seq : Nat) (ids : List Nat) : Nat := max seq (maxId ids) + 1

/-- SQL `CREATE TABLE IF NOT EXISTS address(...)`. -/
def sqlCreateAddress (st : Store) : Option Store :=
  match st.address with
  | some _ => some st
  | none => some { st with address := some [] }

/-- SQL `CREATE TABLE IF NOT EXISTS debank_api_results(...)`. -/
def sqlCreateResults (st : Store) : Option Store :=
  match st.debank_api_results with
  | some _ => some st
  | none => some { st with debank_api_results := some [] }

/-- SQL `INSERT INTO address (address) VALUES ($1)`: rejected when the table
is missing or when the `UNIQUE` column already holds the value. -/
def sqlInsertAddress (address : String) (st : Store) : Option Store :=
  match st.address with
  | none => none
  | some rows =>
    if address ∈ rows.map AddressRow.address then none
    else
      let id := nextId st.addressSeq (rows.map AddressRow.id)
      some { st with address := some (rows ++ [⟨id, address⟩]), addressSeq := id }

/-- SQL `INSERT INTO debank_api_results (data, create_at, address_id) VALUES ($1, $2, $3)`:
rejected when the table is missing.  The foreign key is declared but the
driver does not enforce it. -/
def sqlInsertResult (data : String) (create_at : Time) (address_id : Nat) (st : Store) :
    Option Store :=
  match st.debank_api_results with
  | none => none
  | some rows =>
    let id := nextId st.resultsSeq (rows.map ResultRow.id)
    some { st with debank_api_results := some (rows ++ [⟨id, data, create_at, address_id⟩]),
                   resultsSeq := id }

/-- SQL `SELECT id, address FROM address`. -/
def sqlSelectWallets (st : Store) : Option (List AddressRow) := st.address

/-- A row of the report: `a.address` and `r.create_at`, the latter NULL
(`none`) when the wallet has no record. -/
abbrev ReportRow := String × Option Time

/-- The rows a left join produces for one row of `address`. -/
def joinRow (a : AddressRow) (rs : List ResultRow) : List ReportRow :=
  match rs.filter (fun r => r.address_id = a.id) with
  | [] => [(a.address, none)]
  | m :: ms => (m :: ms).map (fun r => (a.address, some r.create_at))

/-- The relation `address AS a LEFT JOIN debank_api_results AS r ON a.id = r.address_id`. -/
def leftJoin : List AddressRow → List ResultRow → List ReportRow
  | [], _ => []
  | a :: as, rs => joinRow a rs ++ leftJoin as rs

/-- SQL `SELECT a.address, r.create_at FROM address AS a LEFT JOIN debank_api_results AS r
ON a.id = r.address_id`. -/
def sqlSelectReport (st : Store) : Option (List ReportRow) :=
  match st.address, st.debank_api_results with
  | some as, some rs => some (leftJoin as rs)
  | _, _ => none

/-! ## The program -/

/-- The eight addresses of `initDatabase`, in source order. -/
def addresses : List String :=
  [ "0xba8a8f39b2315d4bc725c026ce3898c2c7e74f57",
    "0x2bd4284509bf6626d5def7ef20d4ca38ce71792e",
    "0x3ea91c76b176779d10cc2a27fd2687888886f0c2",
    "0xe8e94110e568fd45c8eb578bef0f36b5f154b794",
    "0x21bce0768110b9a8c50942be257637a843a7eac6",
    "0x9429614ccabfb2b24f444f33ede29d4575ebcdd1",
    "0x12244c23101f66741dae553c8836a9b2fd4e413a",
    "0x8c2753ee27ba890fbb60653d156d92e1c334f528" ]

/-- Go `initDatabase(db)`. -/
def initDatabase (env : Env) : M Unit := do
  let err ← dbExec env .createAddress sqlCreateAddress
  if err then logFatal
  let err ← dbExec env .createResults sqlCreateResults
  if err then logFatal
  forEach addresses fun address => do
    let err ← dbExec env (.insertAddress address) (sqlInsertAddress address)
    if err then logFatal

/-- The first-start block of `getDB`: `os.Stat`, and `os.Create` when the
file does not exist.  Returns `firstStart`. -/
def statAndCreate (env : Env) : M Bool := do
  let st ← osStat env
  if st = .notExist then
    let err ← osCreate env
    if err then logFatal
    pure true
  else
    pure false

/-- Go `getDB()`; the handle it returns is the global `dbb`. -/
def getDB (env : Env) : M Unit := fun s =>
  if s.dbb then .ok () s
  else
    (do
      let firstStart ← statAndCreate env
      let err ← sqlOpen env
      if err then goPanic
      if firstStart then initDatabase env
      pure ()) s

/-- The `uint32` range. -/
def uint32Size : Nat := 2 ^ 32

/-- Go `wallet := new(Wallet); _ = rows.Scan(&wallet.id, &wallet.address)`:
the columns are assigned left to right and the scan stops at the first one
that does not convert, here an `id` outside `uint32`.  Returns the wallet and
whether the scan returned an error. -/
def scanWallet (r : AddressRow) : Wallet × Bool :=
  if r.id < uint32Size then (⟨r.id, r.address⟩, false) else (⟨0, ""⟩, true)

/-- The `for rows.Next()` loop of `getWallets`. -/
def scanWallets : List AddressRow → List Wallet → M (List Wallet)
  | [], wallets => pure wallets
  | r :: rows, wallets => do
    rowsScan (scanWallet r).2
    scanWallets rows (wallets ++ [(scanWallet r).1])

/-- Go `getWallets()`. -/
def getWallets (env : Env) : M (List Wallet) := do
  getDB env
  let rows ← dbQuery env .selectWallets sqlSelectWallets
  match rows with
  | none => logFatal
  | some rows =>
    let wallets ← scanWallets rows []
    let err ← rowsClose env
    if err then logFatal
    pure wallets

/-- Go `fmt.Sprintf("https://openapi.debank.com/v1/user/token_list?id=%s&is_all=true", address)`. -/
def tokenListURL (address : String) : String :=
  "https://openapi.debank.com/v1/user/token_list?id=" ++ address ++ "&is_all=true"

/-- Go `getDebankData(address)`. -/
def getDebankData (env : Env) (address : String) : M String := do
  let resp ← httpGet env (tokenListURL address)
  match resp with
  | none => logFatal
  | some resp =>
    let body ← readAll resp
    match body with
    | none => logFatal
    | some body => pure body

/-- Go `insertDebankData(id, data)`. -/
def insertDebankData (env : Env) (id : Nat) (data : String) : M Unit := do
  getDB env
  let t ← timeNow env
  let err ← dbExec env (.insertResult data t id) (sqlInsertResult data t id)
  if err then logFatal

/-- The body of the loop of `getDebankDataForAllWallets`. -/
def sweepWallet (env : Env) (wallet : Wallet) : M Unit := do
  let data ← getDebankData env wallet.address
  insertDebankData env wallet.id data

/-- Go `getDebankDataForAllWallets()`. -/
def getDebankDataForAllWallets (env : Env) : M Unit := do
  let wallets ← getWallets env
  forEach wallets (sweepWallet env)

/-- Go `fetch(w, req)`. -/
def fetch (env : Env) : M Unit := do
  getDebankDataForAllWallets env
  write "OK\n"

/-- The format string `header` of `usd` applied to its three arguments. -/
def header (a b c : String) : String :=
  "<tr><th>" ++ a ++ "</th><th>" ++ b ++ "</th><th>" ++ c ++ "</th></tr>"

/-- The format string `tmpl` of `usd` applied to its two arguments. -/
def tmpl (address createdAt : String) : String :=
  "<tr><td>0</td><td>" ++ address ++ "</td><td>" ++ createdAt ++ "</td></tr>"

/-- Go `var address string; var createdAt time.Time; _ = rows.Scan(&address, &createdAt)`:
a NULL does not convert to `time.Time`, the scan returns an error and
`createdAt` keeps its zero value.  Returns both variables and whether the
scan returned an error. -/
def scanReport (row : ReportRow) : String × Time × Bool :=
  match row.2 with
  | some t => (row.1, t, false)
  | none => (row.1, zeroTime, true)

/-- The body of the `for rows.Next()` loop of `usd`. -/
def usdRow (env : Env) (row : ReportRow) : M Unit := do
  rowsScan (scanReport row).2.2
  write (tmpl (scanReport row).1 (env.format (scanReport row).2.1))

/-- Go `usd(w, req)`. -/
def usd (env : Env) : M Unit := do
  getDB env
  let rows ← dbQuery env .selectReport sqlSelectReport
  match rows with
  | none => logFatal
  | some rows =>
    write "<table>"
    write (header "usd" "address" "created_at")
    forEach rows (usdRow env)
    let err ← rowsClose env
    if err then logFatal
    write "</table>"

/-- A new process on the same file system: the global `dbb` is nil again. -/
def restart (s : World) : World := { s with dbb := false }

/-! ## Vocabulary of the statements -/

/-- The fetcher of the sweep as a function of the address: the body
`getDebankData` returns, `none` when `http.Get` or the read of the body
returns an error. -/
def fetcher (env : Env) (address : String) : Option String :=
  (env.get (tokenListURL address)).bind Response.body

/-- No file or database call returns an error of its own. -/
def NoFault (env : Env) : Prop := ∀ k, env.fault k = false

/-- The URLs `http.Get` was called with, in call order. -/
def gets (evs : List Event) : List String :=
  evs.filterMap fun e => match e.call with
    | .httpGet url => some url
    | _ => none

/-- How many times the wallet list was queried. -/
def walletReads (evs : List Event) : Nat := evs.countP fun e => e.call = .selectWallets

/-- The addresses `INSERT INTO address` was executed with, in call order. -/
def addressInserts (evs : List Event) : List String :=
  evs.filterMap fun e => match e.call with
    | .insertAddress a => some a
    | _ => none

/-- The events of the scan loop of `getWallets` over the given rows. -/
def scanEvents (rows : List AddressRow) : List Event :=
  rows.map fun r => ⟨.scan, (scanWallet r).2⟩

/-- The wallet list `getWallets` builds from the rows of `address`. -/
def walletsOf (rows : List AddressRow) : List Wallet :=
  rows.map fun r => (scanWallet r).1

/-- The ingestion records of a world (none while the table is missing). -/
def World.records (s : World) : List ResultRow := s.store.debank_api_results.getD []

/-- The rows of table `address` of a world (none while the table is missing). -/
def World.wallets (s : World) : List AddressRow := s.store.address.getD []

/-- A world whose store file exists and holds both tables. -/
def ready (dbb : Bool) (rows : List AddressRow) (aseq : Nat) (recs : List ResultRow) (rseq : Nat)
    (log : List Event) (resp : List String) : World :=
  ⟨dbb, some ⟨some rows, aseq, some recs, rseq⟩, log, resp⟩

/-- A fresh process in front of an absent store. -/
def absent (log : List Event) (resp : List String) : World := ⟨false, none, log, resp⟩

/-- The given number of sweeps, one after the other. -/
def sweeps (env : Env) : Nat → M Unit
  | 0 => pure ()
  | k + 1 => getDebankDataForAllWallets env >>= fun _ => sweeps env k

/-- Calls of `getDB` one after the other; the flag of a call says whether
the process was restarted just before it. -/
def getDBs (env : Env) : List Bool → M Unit
  | [] => pure ()
  | r :: rs => fun s => (getDB env >>= fun _ => getDBs env rs) (if r then restart s else s)

/-- The chunk the loop of `usd` writes for one row of the report. -/
def renderRow (env : Env) (row : ReportRow) : String :=
  tmpl (scanReport row).1 (env.format (scanReport row).2.1)

/-- The events of the scan loop of `usd` over the given rows. -/
def reportScanEvents (rows : List ReportRow) : List Event :=
  rows.map fun row => ⟨.scan, (scanReport row).2.2⟩

/-- The number of ingestion records of the wallet with the given key. -/
def recordCount (id : Nat) (rs : List ResultRow) : Nat :=
  (rs.filter fun r => r.address_id = id).length

/-- The rows of `address` after the bootstrap: the seed addresses with the
keys 1 to 8. -/
def seedRows : List AddressRow :=
  [ ⟨1, "0xba8a8f39b2315d4bc725c026ce3898c2c7e74f57"⟩,
    ⟨2, "0x2bd4284509bf6626d5def7ef20d4ca38ce71792e"⟩,
    ⟨3, "0x3ea91c76b176779d10cc2a27fd2687888886f0c2"⟩,
    ⟨4, "0xe8e94110e568fd45c8eb578bef0f36b5f154b794"⟩,
    ⟨5, "0x21bce0768110b9a8c50942be257637a843a7eac6"⟩,
    ⟨6, "0x9429614ccabfb2b24f444f33ede29d4575ebcdd1"⟩,
    ⟨7, "0x12244c23101f66741dae553c8836a9b2fd4e413a"⟩,
    ⟨8, "0x8c2753ee27ba890fbb60653d156d92e1c334f528"⟩ ]

/-- The function keeps the relation between the world it starts in and the
world it ends in, however it ends. -/
def Pres {α : Type} (R : World → World → Prop) (f : M α) : Prop := ∀ s, R s (f s).state

/-- A relation between worlds that every call which only reads or logs keeps. -/
structure Closed (R : World → World → Prop) : Prop where
  refl : ∀ s, R s s
  trans : ∀ a b c, R a b → R b c → R a c
  onEmit : ∀ c b s, R s (emit c b s)
  onConnect : ∀ s, R s { s with file := some s.store }

/-- The relation holds after one more ingestion record was inserted. -/
def InsertClosed (R : World → World → Prop) : Prop :=
  ∀ d t i s st, sqlInsertResult d t i s.store = some st → R s { s with file := some st }

/-- A relation between worlds that every statement of `initDatabase` keeps as well. -/
structure InitClosed (R : World → World → Prop) extends Closed R : Prop where
  onCreateAddress : ∀ s st, sqlCreateAddress s.store = some st → R s { s with file := some st }
  onCreateResults : ∀ s st, sqlCreateResults s.store = some st → R s { s with file := some st }
  onInsertAddress : ∀ a s st, sqlInsertAddress a s.store = some st →
    R s { s with file := some st }

/-- A relation between worlds that every step of `getDB` keeps as well. -/
structure BootClosed (R : World → World → Prop) extends InitClosed R : Prop where
  onCreate : ∀ s, s.file = none → R s { s with file := some Store.empty }
  onOpen : ∀ s b, R s { s with dbb := b }

/-- The relation holds after one more chunk was written to the response. -/
def WriteClosed (R : World → World → Prop) : Prop :=
  ∀ s chunk, R s { s with resp := s.resp ++ [chunk] }

/-- Every ingestion record of the first world is still there, unchanged and
in place, in the second: the record table only grew at its end. -/
def RecordsGrow (s s1 : World) : Prop := s.records <+: s1.records

/-- No two rows of table `address` hold the same address. -/
def UniqueAddresses (s : World) : Prop := (s.wallets.map AddressRow.address).Nodup

/-- Uniqueness of the addresses carries over from the first world to the second. -/
def KeepsUnique (s s1 : World) : Prop := UniqueAddresses s → UniqueAddresses s1

/-- The process is past the first start: the handle is cached or the store
file exists. -/
def Started (s : World) : Prop := s.dbb = true ∨ s.file.isSome = true

/-- Past the first start, table `address` is as it was. -/
def AddressFrozen (s s1 : World) : Prop :=
  Started s → Started s1 ∧ s1.store.address = s.store.address

/-- Nothing was written to the response. -/
def RespSame (s s1 : World) : Prop := s1.resp = s.resp

/-- A cached handle stays cached. -/
def HandleStays (s s1 : World) : Prop := s.dbb = true → s1.dbb = true

/-- Events among which only `os.Stat` and `rows.Scan` returned an error. -/
def Quiet (evs : List Event) : Prop :=
  ∀ e ∈ evs, e.failed = true → e.call = .stat ∨ e.call = .scan

/-- How an operation that started in `s` may end.
* It returns: no call it made returned an error, `os.Stat` and `rows.Scan`
  apart.
* `log.Fatal`: its last call returned an error, that call is not `os.Stat`,
  `rows.Scan` or `sql.Open`, and no earlier call returned one (the same two
  apart).
* `panic`: its last call is `sql.Open`, which returned an error, and no
  earlier call returned one (the same two apart). -/
def FailStop {α : Type} (s : World) : Outcome α → Prop
  | .ok _ s1 => ∃ evs, s1.log = s.log ++ evs ∧ Quiet evs
  | .fatal s1 => ∃ evs c, s1.log = s.log ++ evs ++ [⟨c, true⟩] ∧ Quiet evs
      ∧ c ≠ .stat ∧ c ≠ .scan ∧ c ≠ .sqlOpen
  | .panic s1 => ∃ evs, s1.log = s.log ++ evs ++ [⟨.sqlOpen, true⟩] ∧ Quiet evs

/-- The function ends as `FailStop` says, from every world. -/
def FS {α : Type} (f : M α) : Prop := ∀ s, FailStop s (f s)

/-- A call whose error the caller checks: not `os.Stat`, `rows.Scan` or `sql.Open`. -/
def Checked (c : Call) : Prop := c ≠ .stat ∧ c ≠ .scan ∧ c ≠ .sqlOpen

/-- The record table of the first world is an initial part of that of the
second, and so are the records of every single wallet. -/
def RecordsKept (s s1 : World) : Prop :=
  s.records <+: s1.records
  ∧ ∀ key, s.records.filter (fun r => r.address_id = key)
      <+: s1.records.filter (fun r => r.address_id = key)

/-- The record table is what it was. -/
def RecordsSame (s s1 : World) : Prop := s1.records = s.records

/-- The operations a process performs on the store, and its restart. -/
inductive Op where
  | getDB
  | sweep
  | fetch
  | usd
  | restart
deriving DecidableEq, Repr

/-- The world one operation leaves behind, however it ends. -/
def Op.run (env : Env) : Op → World → World
  | .getDB, s => (Midas.getDB env s).state
  | .sweep, s => (getDebankDataForAllWallets env s).state
  | .fetch, s => (Midas.fetch env s).state
  | .usd, s => (Midas.usd env s).state
  | .restart, s => Midas.restart s

/-- The world a sequence of operations leaves behind. -/
def runOps (env : Env) : List Op → World → World
  | [], s => s
  | o :: os, s => runOps env os (o.run env s)

/-! ## Concrete inputs -/

/-- Surroundings in which nothing fails and every fetch returns the same body. -/
def calmEnv : Env where
  get := fun _ => some ⟨some "{}"⟩
  fault := fun _ => false
  now := fun k => 1000 + (k : Int)
  format := fun t => if t = 0 then "Monday, 01-Jan-01 00:00:00 UTC" else "later"

/-- Surroundings in which the fetch for the address `0xB` fails and nothing else does. -/
def failEnv : Env where
  get := fun url => if url = tokenListURL "0xB" then none else some ⟨some "{}"⟩
  fault := fun _ => false
  now := fun k => 1000 + (k : Int)
  format := fun t => if t = 0 then "Monday, 01-Jan-01 00:00:00 UTC" else "later"

/-- Surroundings in which the first file or database call returns an error. -/
def statFaultEnv : Env where
  get := fun _ => some ⟨some "{}"⟩
  fault := fun k => decide (k = 0)
  now := fun k => 1000 + (k : Int)
  format := fun _ => "later"

/-- Three wallets. -/
def threeRows : List AddressRow := [⟨1, "0xA"⟩, ⟨2, "0xB"⟩, ⟨3, "0xC"⟩]

/-- One wallet. -/
def oneRow : List AddressRow := [⟨1, "0xA"⟩]

/-- Two ingestion records of the wallet with key 1. -/
def twoRecords : List ResultRow := [⟨1, "{}", 1002, 1⟩, ⟨2, "{}", 1009, 1⟩]

/-! ## Sequencing lemmas -/

theorem bind_apply {α β : Type} (f : M α) (g : α → M β) (s : World) :
    (f >>= g) s = match f s with
      | .ok a s1 => g a s1
      | .fatal s1 => .fatal s1
      | .panic s1 => .panic s1 := rfl

theorem pure_apply {α : Type} (a : α) (s : World) : (pure a : M α) s = .ok a s := rfl

theorem forEach_nil {α : Type} (f : α → M Unit) (s : World) : forEach [] f s = .ok () s := rfl

theorem forEach_cons {α : Type} (x : α) (xs : List α) (f : α → M Unit) :
    forEach (x :: xs) f = f x >>= fun _ => forEach xs f := rfl

/-! ## Projections of the log -/

theorem gets_append (a b : List Event) : gets (a ++ b) = gets a ++ gets b := by
  simp [gets, List.filterMap_append]

theorem walletReads_append (a b : List Event) :
    walletReads (a ++ b) = walletReads a + walletReads b := by
  simp [walletReads, List.countP_append]

theorem addressInserts_append (a b : List Event) :
    addressInserts (a ++ b) = addressInserts a ++ addressInserts b := by
  simp [addressInserts, List.filterMap_append]

theorem gets_scanEvents (rows : List AddressRow) : gets (scanEvents rows) = [] := by
  induction rows with
  | nil => rfl
  | cons r rows ih => simp [gets, scanEvents]

theorem walletReads_scanEvents (rows : List AddressRow) : walletReads (scanEvents rows) = 0 := by
  induction rows with
  | nil => rfl
  | cons r rows ih => simp [walletReads, scanEvents]

/-! ## The sweep when nothing fails -/

theorem scanWallets_eq (rows : List AddressRow) (acc : List Wallet) (s : World) :
    scanWallets rows acc s = .ok (acc ++ walletsOf rows)
      { s with log := s.log ++ scanEvents rows } := by
  induction rows generalizing acc s with
  | nil => simp [scanWallets, pure_apply, scanEvents, walletsOf]
  | cons r rows ih =>
    simp [scanWallets, bind_apply, rowsScan, ih, emit, scanEvents, walletsOf]

theorem getWallets_ok (env : Env) (hnf : NoFault env) (dbb : Bool) (rows : List AddressRow)
    (aseq : Nat) (R : Option (List ResultRow)) (rseq : Nat)
    (log : List Event) (resp : List String) :
    ∃ evs, getWallets env ⟨dbb, some ⟨some rows, aseq, R, rseq⟩, log, resp⟩
      = .ok (walletsOf rows) ⟨true, some ⟨some rows, aseq, R, rseq⟩, log ++ evs, resp⟩
      ∧ gets evs = [] ∧ walletReads evs = 1 := by
  cases dbb <;>
  simp [getWallets, getDB, statAndCreate, osStat, sqlOpen, dbQuery, rowsClose, bind_apply,
      pure_apply, emit, hnf _, World.store, sqlSelectWallets, scanWallets_eq]
  · refine ⟨?_, ?_⟩
    · simpa [gets, List.filterMap_append] using gets_scanEvents rows
    · simpa [walletReads, List.countP_append, List.countP_cons] using walletReads_scanEvents rows
  · refine ⟨?_, ?_⟩
    · simpa [gets, List.filterMap_append] using gets_scanEvents rows
    · simpa [walletReads, List.countP_append, List.countP_cons] using walletReads_scanEvents rows

theorem sweepWallet_ok (env : Env) (hnf : NoFault env) (w : Wallet) (b : String)
    (hb : fetcher env w.address = some b)
    (A : Option (List AddressRow)) (aseq : Nat) (recs : List ResultRow) (rseq : Nat)
    (log : List Event) (resp : List String) :
    ∃ r evs, sweepWallet env w ⟨true, some ⟨A, aseq, some recs, rseq⟩, log, resp⟩
      = .ok () ⟨true, some ⟨A, aseq, some (recs ++ [r]), r.id⟩, log ++ evs, resp⟩
      ∧ r.address_id = w.id ∧ r.data = b ∧ gets evs = [tokenListURL w.address]
      ∧ walletReads evs = 0 := by
  unfold fetcher at hb
  cases hg : env.get (tokenListURL w.address) with
  | none => simp [hg] at hb
  | some r =>
    obtain ⟨rb⟩ := r
    simp [hg] at hb
    subst hb
    simp [sweepWallet, getDebankData, insertDebankData, getDB, bind_apply, pure_apply, httpGet,
      readAll, timeNow, dbExec, hg, emit, hnf _, World.store, sqlInsertResult]
    exact ⟨_, _, ⟨⟨rfl, rfl⟩, rfl⟩, rfl, rfl, by simp [gets], by simp [walletReads]⟩

theorem sweepLoop_ok (env : Env) (hnf : NoFault env) (A : Option (List AddressRow)) (aseq : Nat)
    (resp : List String) (ws : List Wallet)
    (hf : ∀ w ∈ ws, (fetcher env w.address).isSome)
    (recs : List ResultRow) (rseq : Nat) (log : List Event) :
    ∃ new rseq1 evs,
      forEach ws (sweepWallet env) ⟨true, some ⟨A, aseq, some recs, rseq⟩, log, resp⟩
        = .ok () ⟨true, some ⟨A, aseq, some (recs ++ new), rseq1⟩, log ++ evs, resp⟩
      ∧ new.map (fun r => (r.address_id, some r.data))
          = ws.map (fun w => (w.id, fetcher env w.address))
      ∧ gets evs = ws.map (fun w => tokenListURL w.address)
      ∧ walletReads evs = 0 := by
  induction ws generalizing recs rseq log with
  | nil => exact ⟨[], rseq, [], by simp [forEach_nil], rfl, rfl, rfl⟩
  | cons w ws ih =>
    have hw := hf w (List.mem_cons_self _ _)
    obtain ⟨b, hb⟩ := Option.isSome_iff_exists.mp hw
    obtain ⟨r, evs, hstep, hid, hdata, hg, hr⟩ :=
      sweepWallet_ok env hnf w b hb A aseq recs rseq log resp
    obtain ⟨new, rseq1, evs1, hrest, hmap, hg1, hr1⟩ :=
      ih (fun w hw => hf w (List.mem_cons_of_mem _ hw)) (recs ++ [r]) r.id (log ++ evs)
    refine ⟨r :: new, rseq1, evs ++ evs1, ?_, ?_, ?_, ?_⟩
    · simp [forEach_cons, bind_apply, hstep, hrest]
    · simp [hmap, hid, hdata, hb]
    · simp [gets_append, hg, hg1]
    · simp [walletReads_append, hr, hr1]

theorem sweep_ok (env : Env) (hnf : NoFault env) (rows : List AddressRow)
    (hf : ∀ w ∈ walletsOf rows, (fetcher env w.address).isSome)
    (dbb : Bool) (aseq : Nat) (recs : List ResultRow) (rseq : Nat)
    (log : List Event) (resp : List String) :
    ∃ new rseq1 evs,
      getDebankDataForAllWallets env (ready dbb rows aseq recs rseq log resp)
        = .ok () (ready true rows aseq (recs ++ new) rseq1 (log ++ evs) resp)
      ∧ new.map (fun r => (r.address_id, some r.data))
          = (walletsOf rows).map (fun w => (w.id, fetcher env w.address))
      ∧ gets evs = (walletsOf rows).map (fun w => tokenListURL w.address)
      ∧ walletReads evs = 1 := by
  obtain ⟨evs0, h0, hg0, hr0⟩ := getWallets_ok env hnf dbb rows aseq (some recs) rseq log resp
  obtain ⟨new, rseq1, evs1, h1, hmap, hg1, hr1⟩ :=
    sweepLoop_ok env hnf (some rows) aseq resp (walletsOf rows) hf recs rseq (log ++ evs0)
  refine ⟨new, rseq1, evs0 ++ evs1, ?_, hmap, ?_, ?_⟩
  · simp [getDebankDataForAllWallets, bind_apply, ready, h0, h1]
  · simp [gets_append, hg0, hg1]
  · simp [walletReads_append, hr0, hr1]

theorem sweeps_ok (env : Env) (hnf : NoFault env) (rows : List AddressRow)
    (hf : ∀ w ∈ walletsOf rows, (fetcher env w.address).isSome) (K : Nat)
    (dbb : Bool) (aseq : Nat) (recs : List ResultRow) (rseq : Nat)
    (log : List Event) (resp : List String) :
    ∃ new rseq1 evs,
      sweeps env K (ready dbb rows aseq recs rseq log resp)
        = .ok () (ready (dbb || decide (0 < K)) rows aseq (recs ++ new) rseq1 (log ++ evs) resp)
      ∧ new.length = K * rows.length := by
  induction K generalizing dbb recs rseq log with
  | zero => exact ⟨[], rseq, [], by simp [sweeps, pure_apply], by simp⟩
  | succ K ih =>
    obtain ⟨new, rseq1, evs, h, hmap, -, -⟩ := sweep_ok env hnf rows hf dbb aseq recs rseq log resp
    obtain ⟨new1, rseq2, evs1, h1, hlen⟩ := ih true (recs ++ new) rseq1 (log ++ evs)
    have hnew : new.length = rows.length := by
      have := congrArg List.length hmap
      simpa [walletsOf] using this
    refine ⟨new ++ new1, rseq2, evs ++ evs1, ?_, ?_⟩
    · simp [sweeps, bind_apply, h, h1]
    · simp [hlen, hnew]; ring

/-! ## The bootstrap when nothing fails -/

theorem getDB_boot (env : Env) (hnf : NoFault env) (log : List Event) (resp : List String) :
    ∃ evs, getDB env (absent log resp) = .ok () (ready true seedRows 8 [] 0 (log ++ evs) resp)
      ∧ addressInserts evs = addresses := by
  simp [getDB, absent, ready, statAndCreate, osStat, osCreate, sqlOpen, initDatabase, dbExec,
    bind_apply, pure_apply, emit, hnf _, World.store, sqlCreateAddress, sqlCreateResults,
    Store.empty, addresses, forEach_cons, forEach_nil, sqlInsertAddress, nextId, maxId,
    logFatal, seedRows, addressInserts]

theorem getDB_again (env : Env) (hnf : NoFault env) (dbb : Bool) (st : Store)
    (log : List Event) (resp : List String) :
    ∃ evs, getDB env ⟨dbb, some st, log, resp⟩ = .ok () ⟨true, some st, log ++ evs, resp⟩
      ∧ addressInserts evs = [] := by
  cases dbb
  · simp [getDB, statAndCreate, osStat, sqlOpen, bind_apply, pure_apply, emit, hnf _,
      addressInserts]
  · exact ⟨[], by simp [getDB], rfl⟩

theorem getDBs_again (env : Env) (hnf : NoFault env) (rs : List Bool) (dbb : Bool) (st : Store)
    (log : List Event) (resp : List String) :
    ∃ evs dbb1, getDBs env rs ⟨dbb, some st, log, resp⟩ = .ok () ⟨dbb1, some st, log ++ evs, resp⟩
      ∧ addressInserts evs = [] := by
  induction rs generalizing dbb log with
  | nil => exact ⟨[], dbb, by simp [getDBs, pure_apply], rfl⟩
  | cons r rs ih =>
    obtain ⟨evs, h, hi⟩ := getDB_again env hnf (if r then false else dbb) st log resp
    obtain ⟨evs1, dbb1, h1, hi1⟩ := ih true (log ++ evs)
    refine ⟨evs ++ evs1, dbb1, ?_, by simp [addressInserts_append, hi, hi1]⟩
    cases r <;> simp_all [getDBs, bind_apply, restart]

/-! ## The report -/

theorem joinRow_length (a : AddressRow) (rs : List ResultRow) :
    (joinRow a rs).length = max 1 (recordCount a.id rs) := by
  unfold joinRow recordCount
  cases h : rs.filter (fun r => r.address_id = a.id) with
  | nil => simp
  | cons m ms => simp

theorem leftJoin_length (as : List AddressRow) (rs : List ResultRow) :
    (leftJoin as rs).length = (as.map fun a => max 1 (recordCount a.id rs)).sum := by
  induction as with
  | nil => rfl
  | cons a as ih => simp [leftJoin, joinRow_length, ih]

theorem leftJoin_append (as bs : List AddressRow) (rs : List ResultRow) :
    leftJoin (as ++ bs) rs = leftJoin as rs ++ leftJoin bs rs := by
  induction as with
  | nil => rfl
  | cons a as ih => simp [leftJoin, ih]

theorem joinRow_of_no_record (a : AddressRow) (rs : List ResultRow)
    (h : recordCount a.id rs = 0) : joinRow a rs = [(a.address, none)] := by
  unfold recordCount at h
  unfold joinRow
  rw [List.length_eq_zero.mp h]

theorem leftJoin_of_no_record (as : List AddressRow) (rs : List ResultRow) (a : AddressRow)
    (ha : a ∈ as) (h : recordCount a.id rs = 0) :
    ∃ l1 l2, leftJoin as rs = l1 ++ [(a.address, none)] ++ l2 := by
  obtain ⟨as1, as2, rfl⟩ := List.append_of_mem ha
  refine ⟨leftJoin as1 rs, leftJoin as2 rs, ?_⟩
  simp [leftJoin_append, leftJoin, joinRow_of_no_record a rs h]

theorem sum_max_one_ge (as : List AddressRow) (rs : List ResultRow) :
    as.length ≤ (as.map fun a => max 1 (recordCount a.id rs)).sum := by
  induction as with
  | nil => simp
  | cons a as ih =>
    simp only [List.map_cons, List.sum_cons, List.length_cons]
    have : 1 ≤ max 1 (recordCount a.id rs) := le_max_left _ _
    omega

theorem sum_max_one_eq_iff (as : List AddressRow) (rs : List ResultRow) :
    (as.map fun a => max 1 (recordCount a.id rs)).sum = as.length
      ↔ ∀ a ∈ as, recordCount a.id rs ≤ 1 := by
  induction as with
  | nil => simp
  | cons a as ih =>
    simp only [List.map_cons, List.sum_cons, List.length_cons, List.mem_cons, forall_eq_or_imp]
    have hge := sum_max_one_ge as rs
    have h1 : 1 ≤ max 1 (recordCount a.id rs) := le_max_left _ _
    constructor
    · intro h
      have hsum : (as.map fun a => max 1 (recordCount a.id rs)).sum = as.length := by omega
      have hmax : max 1 (recordCount a.id rs) = 1 := by omega
      refine ⟨?_, ih.mp hsum⟩
      have := le_max_right 1 (recordCount a.id rs)
      omega
    · rintro ⟨ha, hrest⟩
      have hsum := ih.mpr hrest
      have hmax : max 1 (recordCount a.id rs) = 1 := max_eq_left ha
      omega

theorem usdLoop_eq (env : Env) (rows : List ReportRow) (s : World) :
    forEach rows (usdRow env) s = .ok ()
      { s with log := s.log ++ reportScanEvents rows,
               resp := s.resp ++ rows.map (renderRow env) } := by
  induction rows generalizing s with
  | nil => simp [forEach_nil, reportScanEvents]
  | cons r rows ih =>
    simp [forEach_cons, bind_apply, usdRow, rowsScan, write, emit, ih, reportScanEvents, renderRow]

theorem usd_ok (env : Env) (hnf : NoFault env) (dbb : Bool) (rows : List AddressRow)
    (aseq : Nat) (recs : List ResultRow) (rseq : Nat) (log : List Event) (resp : List String) :
    ∃ evs, usd env (ready dbb rows aseq recs rseq log resp)
      = .ok () (ready true rows aseq recs rseq (log ++ evs)
          (resp ++ ["<table>", header "usd" "address" "created_at"]
            ++ (leftJoin rows recs).map (renderRow env) ++ ["</table>"])) := by
  cases dbb <;>
  simp [usd, ready, getDB, statAndCreate, osStat, sqlOpen, dbQuery, rowsClose, bind_apply,
      pure_apply, emit, hnf _, World.store, sqlSelectReport, usdLoop_eq, write]

/-! ## Relations every operation keeps -/

section Pres

variable {R : World → World → Prop}

theorem pres_pure {α : Type} (hR : Closed R) (a : α) : Pres R (pure a : M α) :=
  fun s => hR.refl s

theorem pres_logFatal {α : Type} (hR : Closed R) : Pres R (logFatal : M α) :=
  fun s => hR.refl s

theorem pres_goPanic {α : Type} (hR : Closed R) : Pres R (goPanic : M α) :=
  fun s => hR.refl s

theorem pres_bind {α β : Type} (hR : Closed R) {f : M α} {g : α → M β}
    (hf : Pres R f) (hg : ∀ a, Pres R (g a)) : Pres R (f >>= g) := by
  intro s
  have h := hf s
  rw [bind_apply]
  cases hfs : f s with
  | ok a s1 =>
    rw [hfs] at h
    exact hR.trans _ _ _ h (hg a s1)
  | fatal s1 => rw [hfs] at h; exact h
  | panic s1 => rw [hfs] at h; exact h

theorem pres_forEach {α : Type} (hR : Closed R) (xs : List α) {f : α → M Unit}
    (hf : ∀ x, Pres R (f x)) : Pres R (forEach xs f) := by
  induction xs with
  | nil => exact fun s => hR.refl s
  | cons x xs ih =>
    rw [forEach_cons]
    exact pres_bind hR (hf x) fun _ => ih

theorem pres_rowsClose (hR : Closed R) (env : Env) : Pres R (rowsClose env) := by
  intro s
  unfold rowsClose
  split <;> exact hR.onEmit _ _ _

theorem pres_httpGet (hR : Closed R) (env : Env) (url : String) : Pres R (httpGet env url) := by
  intro s
  unfold httpGet
  split <;> exact hR.onEmit _ _ _

theorem pres_readAll (hR : Closed R) (r : Response) : Pres R (readAll r) := by
  intro s
  unfold readAll
  split <;> exact hR.onEmit _ _ _

theorem pres_timeNow (hR : Closed R) (env : Env) : Pres R (timeNow env) :=
  fun s => hR.onEmit _ _ s

theorem pres_rowsScan (hR : Closed R) (b : Bool) : Pres R (rowsScan b) :=
  fun s => hR.onEmit _ _ s

theorem pres_write (hR : WriteClosed R) (chunk : String) : Pres R (write chunk) :=
  fun s => hR s chunk

theorem pres_dbQuery {ρ : Type} (hR : Closed R) (env : Env) (c : Call)
    (run : Store → Option (List ρ)) : Pres R (dbQuery env c run) := by
  intro s
  unfold dbQuery
  split
  · exact hR.onEmit _ _ _
  · split <;> exact hR.trans _ _ _ (hR.onConnect s) (hR.onEmit _ _ _)

theorem pres_dbExec (hR : Closed R) (env : Env) (c : Call) (run : Store → Option Store)
    (hrun : ∀ s st, run s.store = some st → R s { s with file := some st }) :
    Pres R (dbExec env c run) := by
  intro s
  unfold dbExec
  split
  · exact hR.onEmit _ _ _
  · split
    · next st h => exact hR.trans _ _ _ (hrun s st h) (hR.onEmit _ _ _)
    · exact hR.trans _ _ _ (hR.onConnect s) (hR.onEmit _ _ _)

theorem pres_orFatal (hR : Closed R) (err : Bool) :
    Pres R (if err = true then logFatal else (Pure.pure PUnit.unit : M PUnit)) := by
  split
  · exact pres_logFatal hR
  · exact pres_pure hR _

theorem pres_check {β : Type} (hR : Closed R) (err : Bool) (k : PUnit → M β)
    (hk : Pres R (k PUnit.unit)) :
    Pres R (if err = true then (logFatal : M PUnit) >>= k
      else (Pure.pure PUnit.unit : M PUnit) >>= k) := by
  split
  · exact pres_bind hR (pres_logFatal hR) fun _ => hk
  · exact pres_bind hR (pres_pure hR _) fun _ => hk

theorem pres_checkPanic {β : Type} (hR : Closed R) (err : Bool) (k : PUnit → M β)
    (hk : Pres R (k PUnit.unit)) :
    Pres R (if err = true then (goPanic : M PUnit) >>= k
      else (Pure.pure PUnit.unit : M PUnit) >>= k) := by
  split
  · exact pres_bind hR (pres_goPanic hR) fun _ => hk
  · exact pres_bind hR (pres_pure hR _) fun _ => hk

theorem pres_scanWallets (hR : Closed R) (rows : List AddressRow) (acc : List Wallet) :
    Pres R (scanWallets rows acc) := by
  induction rows generalizing acc with
  | nil => exact fun s => hR.refl s
  | cons r rows ih =>
    unfold scanWallets
    exact pres_bind hR (pres_rowsScan hR _) fun _ => ih _

theorem pres_getWallets (hR : Closed R) (env : Env) (hdb : Pres R (getDB env)) :
    Pres R (getWallets env) := by
  unfold getWallets
  refine pres_bind hR hdb fun _ => pres_bind hR (pres_dbQuery hR env _ _) fun rows => ?_
  cases rows with
  | none => exact pres_logFatal hR
  | some rows =>
    refine pres_bind hR (pres_scanWallets hR _ _) fun ws =>
      pres_bind hR (pres_rowsClose hR env) fun err => pres_check hR err _ (pres_pure hR _)

theorem pres_getDebankData (hR : Closed R) (env : Env) (address : String) :
    Pres R (getDebankData env address) := by
  unfold getDebankData
  refine pres_bind hR (pres_httpGet hR env _) fun resp => ?_
  cases resp with
  | none => exact pres_logFatal hR
  | some resp =>
    refine pres_bind hR (pres_readAll hR resp) fun body => ?_
    cases body with
    | none => exact pres_logFatal hR
    | some body => exact pres_pure hR _

theorem pres_insertDebankData (hR : Closed R) (hI : InsertClosed R) (env : Env)
    (hdb : Pres R (getDB env)) (id : Nat) (data : String) :
    Pres R (insertDebankData env id data) := by
  unfold insertDebankData
  exact pres_bind hR hdb fun _ => pres_bind hR (pres_timeNow hR env) fun t =>
    pres_bind hR (pres_dbExec hR env _ _ (hI _ _ _)) fun err => pres_orFatal hR err

theorem pres_sweepWallet (hR : Closed R) (hI : InsertClosed R) (env : Env)
    (hdb : Pres R (getDB env)) (w : Wallet) : Pres R (sweepWallet env w) := by
  unfold sweepWallet
  exact pres_bind hR (pres_getDebankData hR env _) fun _ =>
    pres_insertDebankData hR hI env hdb _ _

theorem pres_sweep (hR : Closed R) (hI : InsertClosed R) (env : Env)
    (hdb : Pres R (getDB env)) : Pres R (getDebankDataForAllWallets env) := by
  unfold getDebankDataForAllWallets
  exact pres_bind hR (pres_getWallets hR env hdb) fun ws =>
    pres_forEach hR ws (pres_sweepWallet hR hI env hdb)

theorem pres_fetch (hR : Closed R) (hI : InsertClosed R) (hW : WriteClosed R) (env : Env)
    (hdb : Pres R (getDB env)) : Pres R (fetch env) := by
  unfold fetch
  exact pres_bind hR (pres_sweep hR hI env hdb) fun _ => pres_write hW _

theorem pres_usdRow (hR : Closed R) (hW : WriteClosed R) (env : Env) (row : ReportRow) :
    Pres R (usdRow env row) := by
  unfold usdRow
  exact pres_bind hR (pres_rowsScan hR _) fun _ => pres_write hW _

theorem pres_usd (hR : Closed R) (hW : WriteClosed R) (env : Env) (hdb : Pres R (getDB env)) :
    Pres R (usd env) := by
  unfold usd
  refine pres_bind hR hdb fun _ => pres_bind hR (pres_dbQuery hR env _ _) fun rows => ?_
  cases rows with
  | none => exact pres_logFatal hR
  | some rows =>
    exact pres_bind hR (pres_write hW _) fun _ => pres_bind hR (pres_write hW _) fun _ =>
      pres_bind hR (pres_forEach hR rows (pres_usdRow hR hW env)) fun _ =>
      pres_bind hR (pres_rowsClose hR env) fun err => pres_check hR err _ (pres_write hW _)

theorem pres_initDatabase (hR : InitClosed R) (env : Env) : Pres R (initDatabase env) := by
  have hC := hR.toClosed
  unfold initDatabase
  refine pres_bind hC (pres_dbExec hC env _ _ hR.onCreateAddress) fun err =>
    pres_check hC err _ <|
    pres_bind hC (pres_dbExec hC env _ _ hR.onCreateResults) fun err =>
    pres_check hC err _ <|
    pres_forEach hC _ fun a =>
      pres_bind hC (pres_dbExec hC env _ _ (hR.onInsertAddress a)) fun err => pres_orFatal hC err

theorem pres_createChecked (hR : BootClosed R) (env : Env) (s : World) (hfile : s.file = none) :
    R s ((osCreate env >>= fun err =>
      if err = true then (logFatal : M PUnit) >>= fun _ => pure true
      else (pure PUnit.unit : M PUnit) >>= fun _ => pure true) s).state := by
  have hC := hR.toClosed
  by_cases hf : env.fault s.log.length = true
  · simp only [bind_apply, osCreate, hf, if_true, logFatal, Outcome.state]
    exact hC.onEmit _ _ _
  · simp only [bind_apply, osCreate, hf, if_false, pure_apply, Outcome.state]
    exact hC.trans _ _ _ (hR.onCreate s hfile) (hC.onEmit _ _ _)

theorem pres_statAndCreate (hR : BootClosed R) (env : Env) : Pres R (statAndCreate env) := by
  have hC := hR.toClosed
  intro s
  unfold statAndCreate
  rw [bind_apply]
  by_cases hf : env.fault s.log.length = true
  · simp only [osStat, hf, if_true, pure_apply, Outcome.state, reduceCtorEq, if_false]
    exact hC.onEmit _ _ _
  · cases hfile : s.file with
    | some st =>
      simp only [osStat, hf, hfile, if_false, pure_apply, Outcome.state, reduceCtorEq]
      exact hC.onEmit _ _ _
    | none =>
      simp only [osStat, hf, hfile, if_false, if_true]
      refine hC.trans _ _ _ (hC.onEmit .stat true s) ?_
      exact pres_createChecked hR env (emit .stat true s) hfile

theorem pres_sqlOpen (hR : BootClosed R) (env : Env) : Pres R (sqlOpen env) := by
  intro s
  unfold sqlOpen
  split <;> exact hR.trans _ _ _ (hR.onOpen s _) (hR.onEmit _ _ _)

theorem pres_getDB (hR : BootClosed R) (env : Env) : Pres R (getDB env) := by
  have hC := hR.toClosed
  intro s
  unfold getDB
  split
  · exact hC.refl s
  · refine pres_bind hC (pres_statAndCreate hR env) (fun firstStart =>
      pres_bind hC (pres_sqlOpen hR env) fun err => pres_checkPanic hC err _ ?_) s
    cases firstStart
    · exact pres_bind hC (pres_pure hC _) fun _ => pres_pure hC _
    · exact pres_bind hC (pres_initDatabase hR.toInitClosed env) fun _ => pres_pure hC _

end Pres

/-! ## Instances: what each relation needs of the single steps -/

theorem records_emit (c : Call) (b : Bool) (s : World) : (emit c b s).records = s.records := rfl

theorem store_mk_some (d : Bool) (st : Store) (l : List Event) (r : List String) :
    World.store ⟨d, some st, l, r⟩ = st := rfl

theorem store_mk_dbb (s : World) (b : Bool) :
    World.store { s with dbb := b } = s.store := rfl

theorem store_mk_resp (s : World) (r : List String) :
    World.store { s with resp := r } = s.store := rfl

theorem store_of_none (s : World) (h : s.file = none) : s.store = Store.empty := by
  simp [World.store, h]

theorem recordsGrow_bootClosed : BootClosed RecordsGrow where
  refl := fun s => ⟨[], by simp⟩
  trans := fun _ _ _ h1 h2 => List.IsPrefix.trans h1 h2
  onEmit := fun c b s => ⟨[], by simp [records_emit]⟩
  onConnect := fun s => ⟨[], by simp [World.records, store_mk_some]⟩
  onCreate := by
    intro s h
    exact ⟨[], by simp [World.records, store_mk_some, store_of_none s h, Store.empty]⟩
  onCreateAddress := by
    intro s st h
    unfold sqlCreateAddress at h
    cases ha : s.store.address <;> simp [ha] at h <;> subst h <;>
      exact ⟨[], by simp [World.records, store_mk_some]⟩
  onCreateResults := by
    intro s st h
    unfold sqlCreateResults at h
    cases hr : s.store.debank_api_results <;> simp [hr] at h <;> subst h
    · exact ⟨[], by simp [World.records, store_mk_some, hr]⟩
    · exact ⟨[], by simp [World.records, store_mk_some]⟩
  onInsertAddress := by
    intro a s st h
    unfold sqlInsertAddress at h
    cases ha : s.store.address with
    | none => simp [ha] at h
    | some rows =>
      simp [ha] at h
      obtain ⟨-, h⟩ := h
      subst h
      exact ⟨[], by simp [World.records, store_mk_some]⟩
  onOpen := fun s b => ⟨[], by simp [World.records, store_mk_dbb]⟩

theorem recordsGrow_writeClosed : WriteClosed RecordsGrow :=
  fun s chunk => ⟨[], by simp [World.records, store_mk_resp]⟩

theorem recordsGrow_insertClosed : InsertClosed RecordsGrow := by
  intro d t i s st h
  unfold sqlInsertResult at h
  cases hr : s.store.debank_api_results with
  | none => simp [hr] at h
  | some rows =>
    simp [hr] at h
    subst h
    exact ⟨_, by simp [World.records, store_mk_some, hr]; rfl⟩

theorem keepsUnique_of_wallets_eq {s s1 : World} (h : s1.wallets = s.wallets) :
    KeepsUnique s s1 := by
  intro hs
  unfold UniqueAddresses at *
  rw [h]
  exact hs

theorem keepsUnique_bootClosed : BootClosed KeepsUnique where
  refl := fun _ h => h
  trans := fun _ _ _ h1 h2 h => h2 (h1 h)
  onEmit := fun _ _ _ => keepsUnique_of_wallets_eq rfl
  onConnect := fun s => keepsUnique_of_wallets_eq (by simp [World.wallets, store_mk_some])
  onCreate := by
    intro s h _
    simp [UniqueAddresses, World.wallets, store_mk_some, Store.empty]
  onCreateAddress := by
    intro s st h
    unfold sqlCreateAddress at h
    cases ha : s.store.address <;> simp [ha] at h <;> subst h
    · exact keepsUnique_of_wallets_eq (by simp [World.wallets, store_mk_some, ha])
    · exact keepsUnique_of_wallets_eq (by simp [World.wallets, store_mk_some])
  onCreateResults := by
    intro s st h
    unfold sqlCreateResults at h
    cases hr : s.store.debank_api_results <;> simp [hr] at h <;> subst h <;>
      exact keepsUnique_of_wallets_eq (by simp [World.wallets, store_mk_some])
  onInsertAddress := by
    intro a s st h
    unfold sqlInsertAddress at h
    cases ha : s.store.address with
    | none => simp [ha] at h
    | some rows =>
      simp [ha] at h
      obtain ⟨hnew, h⟩ := h
      subst h
      intro hs
      simp only [UniqueAddresses, World.wallets, store_mk_some, ha, Option.getD_some,
        List.map_append, List.map_cons, List.map_nil] at hs ⊢
      refine List.Nodup.append hs (List.nodup_singleton _) ?_
      intro x hx hx1
      simp only [List.mem_singleton] at hx1
      subst hx1
      obtain ⟨r, hr, hra⟩ := List.mem_map.mp hx
      exact hnew r hr hra
  onOpen := fun s b => keepsUnique_of_wallets_eq (by simp [World.wallets, store_mk_dbb])

theorem keepsUnique_insertClosed : InsertClosed KeepsUnique := by
  intro d t i s st h
  unfold sqlInsertResult at h
  cases hr : s.store.debank_api_results with
  | none => simp [hr] at h
  | some rows =>
    simp [hr] at h
    subst h
    exact keepsUnique_of_wallets_eq (by simp [World.wallets, store_mk_some])

theorem keepsUnique_writeClosed : WriteClosed KeepsUnique :=
  fun s chunk => keepsUnique_of_wallets_eq (by simp [World.wallets, store_mk_resp])

theorem respSame_bootClosed : BootClosed RespSame where
  refl := fun _ => rfl
  trans := fun _ _ _ h1 h2 => by unfold RespSame at *; rw [h2, h1]
  onEmit := fun _ _ _ => rfl
  onConnect := fun _ => rfl
  onCreate := fun _ _ => rfl
  onCreateAddress := fun _ _ _ => rfl
  onCreateResults := fun _ _ _ => rfl
  onInsertAddress := fun _ _ _ _ => rfl
  onOpen := fun _ _ => rfl

theorem respSame_insertClosed : InsertClosed RespSame := fun _ _ _ _ _ _ => rfl

theorem handleStays_initClosed : InitClosed HandleStays where
  refl := fun _ h => h
  trans := fun _ _ _ h1 h2 h => h2 (h1 h)
  onEmit := fun _ _ _ h => h
  onConnect := fun _ h => h
  onCreateAddress := fun _ _ _ h => h
  onCreateResults := fun _ _ _ h => h
  onInsertAddress := fun _ _ _ _ h => h

theorem handleStays_closed : Closed HandleStays := handleStays_initClosed.toClosed

theorem handleStays_getDB (env : Env) : Pres HandleStays (getDB env) := by
  intro s h
  simp [getDB, h, Outcome.state]

theorem addressFrozen_closed : Closed AddressFrozen where
  refl := fun _ h => ⟨h, rfl⟩
  trans := fun _ _ _ h1 h2 h => ⟨(h2 (h1 h).1).1, ((h2 (h1 h).1).2).trans (h1 h).2⟩
  onEmit := fun _ _ _ h => ⟨h, rfl⟩
  onConnect := fun _ _ => ⟨Or.inr rfl, by simp [store_mk_some]⟩

theorem addressFrozen_insertClosed : InsertClosed AddressFrozen := by
  intro d t i s st h _
  unfold sqlInsertResult at h
  cases hr : s.store.debank_api_results with
  | none => simp [hr] at h
  | some rows =>
    simp [hr] at h
    subst h
    exact ⟨Or.inr rfl, by simp [store_mk_some]⟩

theorem addressFrozen_writeClosed : WriteClosed AddressFrozen :=
  fun _ _ h => ⟨h, rfl⟩

theorem addressFrozen_getDB (env : Env) : Pres AddressFrozen (getDB env) := by
  intro s h
  cases hd : s.dbb with
  | true => simpa [getDB, hd, Outcome.state] using h
  | false =>
    have hfile : s.file.isSome = true := by
      rcases h with h | h
      · simp [hd] at h
      · exact h
    obtain ⟨st, hst⟩ := Option.isSome_iff_exists.mp hfile
    by_cases hf : env.fault s.log.length = true <;>
    by_cases hf2 : env.fault (s.log.length + 1) = true <;>
    simp [getDB, hd, statAndCreate, osStat, sqlOpen, bind_apply, pure_apply, hf, hf2, hst, emit,
      Outcome.state, goPanic, Started, World.store]

theorem recordsSame_bootClosed : BootClosed RecordsSame where
  refl := fun _ => rfl
  trans := fun _ _ _ h1 h2 => by unfold RecordsSame at *; rw [h2, h1]
  onEmit := fun _ _ _ => rfl
  onConnect := fun _ => by simp [RecordsSame, World.records, store_mk_some]
  onCreate := fun s h => by
    simp [RecordsSame, World.records, store_mk_some, store_of_none s h, Store.empty]
  onCreateAddress := by
    intro s st h
    unfold sqlCreateAddress at h
    cases ha : s.store.address <;> simp [ha] at h <;> subst h <;>
      simp [RecordsSame, World.records, store_mk_some]
  onCreateResults := by
    intro s st h
    unfold sqlCreateResults at h
    cases hr : s.store.debank_api_results <;> simp [hr] at h <;> subst h
    · simp [RecordsSame, World.records, store_mk_some, hr]
    · simp [RecordsSame, World.records, store_mk_some]
  onInsertAddress := by
    intro a s st h
    unfold sqlInsertAddress at h
    cases ha : s.store.address with
    | none => simp [ha] at h
    | some rows =>
      simp [ha] at h
      obtain ⟨-, h⟩ := h
      subst h
      simp [RecordsSame, World.records, store_mk_some]
  onOpen := fun _ _ => rfl

theorem recordsSame_writeClosed : WriteClosed RecordsSame := fun _ _ => rfl

/-! ## The sweep when a fetch fails -/

theorem sweepWallet_fetch_fails (env : Env) (w : Wallet) (hw : fetcher env w.address = none)
    (s : World) :
    ∃ evs, sweepWallet env w s = .fatal { s with log := s.log ++ evs }
      ∧ gets evs = [tokenListURL w.address] := by
  unfold fetcher at hw
  cases hg : env.get (tokenListURL w.address) with
  | none =>
    refine ⟨[⟨.httpGet (tokenListURL w.address), true⟩], ?_, by simp [gets]⟩
    simp [sweepWallet, getDebankData, bind_apply, httpGet, hg, logFatal, emit]
  | some r =>
    obtain ⟨rb⟩ := r
    simp [hg] at hw
    subst hw
    refine ⟨[⟨.httpGet (tokenListURL w.address), false⟩, ⟨.readAll, true⟩], ?_, by simp [gets]⟩
    simp [sweepWallet, getDebankData, bind_apply, httpGet, hg, logFatal, readAll, emit]

theorem sweepWallet_step (env : Env) (w : Wallet) (b : String)
    (hb : fetcher env w.address = some b) (s : World) (hd : s.dbb = true) :
    (∃ s1 evs, sweepWallet env w s = .fatal s1 ∧ s1.log = s.log ++ evs
        ∧ gets evs = [tokenListURL w.address] ∧ s1.records = s.records)
    ∨ (∃ s1 evs r, sweepWallet env w s = .ok () s1 ∧ s1.dbb = true ∧ s1.log = s.log ++ evs
        ∧ gets evs = [tokenListURL w.address] ∧ s1.records = s.records ++ [r]
        ∧ r.address_id = w.id ∧ r.data = b) := by
  unfold fetcher at hb
  cases hg : env.get (tokenListURL w.address) with
  | none => simp [hg] at hb
  | some r =>
    obtain ⟨rb⟩ := r
    simp [hg] at hb
    subst hb
    obtain ⟨dbb, file, log, resp⟩ := s
    simp at hd
    subst hd
    by_cases hf : env.fault (log.length + 3) = true
    · left
      simp [sweepWallet, getDebankData, insertDebankData, getDB, bind_apply, pure_apply,
          httpGet, readAll, timeNow, dbExec, hg, emit, hf, logFatal]
      exact ⟨by simp [gets], rfl⟩
    · cases hr : (file.getD Store.empty).debank_api_results with
      | none =>
        left
        simp [sweepWallet, getDebankData, insertDebankData, getDB, bind_apply, pure_apply,
          httpGet, readAll, timeNow, dbExec, hg, emit, hf, logFatal, sqlInsertResult, hr,
          World.store]
        exact ⟨by simp [gets], by simp [World.records, World.store]⟩
      | some rows =>
        right
        simp [sweepWallet, getDebankData, insertDebankData, getDB, bind_apply, pure_apply,
          httpGet, readAll, timeNow, dbExec, hg, emit, hf, logFatal, sqlInsertResult, hr,
          World.store]
        exact ⟨by simp [gets], _, by simp [World.records, World.store, hr]; rfl, rfl, rfl⟩

theorem sweepLoop_failfast (env : Env) (pre : List Wallet) (wi : Wallet) (post : List Wallet)
    (hpre : ∀ w ∈ pre, (fetcher env w.address).isSome) (hwi : fetcher env wi.address = none)
    (s : World) (hd : s.dbb = true) :
    ∃ s1 k evs new, k ≤ pre.length
      ∧ forEach (pre ++ wi :: post) (sweepWallet env) s = .fatal s1
      ∧ s1.log = s.log ++ evs
      ∧ gets evs = ((pre ++ [wi]).take (k + 1)).map (fun w => tokenListURL w.address)
      ∧ s1.records = s.records ++ new
      ∧ new.map (fun r => (r.address_id, some r.data))
          = (pre.take k).map (fun w => (w.id, fetcher env w.address)) := by
  induction pre generalizing s with
  | nil =>
    obtain ⟨evs, h, hg⟩ := sweepWallet_fetch_fails env wi hwi s
    refine ⟨{ s with log := s.log ++ evs }, 0, evs, [], le_refl _, ?_, rfl, by simpa using hg,
      by simp; rfl, rfl⟩
    simp [forEach_cons, bind_apply, h]
  | cons w pre ih =>
    obtain ⟨b, hb⟩ := Option.isSome_iff_exists.mp (hpre w (List.mem_cons_self _ _))
    rcases sweepWallet_step env w b hb s hd with
      ⟨s1, evs, h, hlog, hg, hrec⟩ | ⟨s1, evs, r, h, hd1, hlog, hg, hrec, hid, hdata⟩
    · refine ⟨s1, 0, evs, [], Nat.zero_le _, ?_, hlog, by simpa using hg, by simpa using hrec, rfl⟩
      simp [forEach_cons, bind_apply, h]
    · obtain ⟨s2, k, evs1, new, hk, h2, hlog2, hg2, hrec2, hmap⟩ :=
        ih (fun w hw => hpre w (List.mem_cons_of_mem _ hw)) s1 hd1
      refine ⟨s2, k + 1, evs ++ evs1, r :: new, by simpa using hk, ?_, ?_, ?_, ?_, ?_⟩
      · simp [forEach_cons, bind_apply, h, h2]
      · simp [hlog2, hlog]
      · simp [gets_append, hg, hg2]
      · simp [hrec2, hrec]
      · simp [hmap, hid, hdata, hb]

/-! ## The handle after `getDB` and `getWallets` -/

theorem getDB_ok_dbb (env : Env) (s s0 : World) (h : getDB env s = .ok () s0) :
    s0.dbb = true := by
  cases hd : s.dbb with
  | true =>
    simp [getDB, hd] at h
    rw [← h]; exact hd
  | false =>
    simp only [getDB, hd, Bool.false_eq_true, if_false, bind_apply] at h
    cases h1 : statAndCreate env s with
    | fatal sa => simp [h1] at h
    | panic sa => simp [h1] at h
    | ok fs sa =>
      simp only [h1] at h
      by_cases hf : env.fault sa.log.length = true
      · simp [sqlOpen, hf, goPanic, bind_apply] at h
      · simp only [sqlOpen, hf, if_false, Bool.false_eq_true, bind_apply, pure_apply] at h
        cases fs with
        | false =>
          simp only [bind_apply, pure_apply, Outcome.ok.injEq, true_and, Bool.false_eq_true,
            if_false] at h
          rw [← h]; rfl
        | true =>
          simp only [if_true, bind_apply] at h
          have hp := pres_initDatabase handleStays_initClosed env
            (emit .sqlOpen false { sa with dbb := true }) rfl
          cases h2 : initDatabase env (emit .sqlOpen false { sa with dbb := true }) with
          | fatal sb => rw [h2] at h; simp at h
          | panic sb => rw [h2] at h; simp at h
          | ok u sb =>
            rw [h2] at hp h
            simp only [pure_apply, Outcome.ok.injEq, true_and] at h
            rw [← h]; exact hp

theorem getWallets_ok_dbb (env : Env) (s s1 : World) (ws : List Wallet)
    (h : getWallets env s = .ok ws s1) : s1.dbb = true := by
  cases h0 : getDB env s with
  | fatal sa => simp [getWallets, bind_apply, h0] at h
  | panic sa => simp [getWallets, bind_apply, h0] at h
  | ok u s0 =>
    have hd0 := getDB_ok_dbb env s s0 h0
    have hsame : getWallets env s0 = .ok ws s1 := by
      have e0 : getDB env s0 = .ok () s0 := by simp [getDB, hd0]
      simp only [getWallets, bind_apply, h0] at h
      simp only [getWallets, bind_apply, e0]
      exact h
    have hp := pres_getWallets handleStays_closed env (handleStays_getDB env) s0 hd0
    rw [hsame] at hp
    exact hp

/-! ## The sweep whenever it returns -/

theorem sweepWallet_ok_inv (env : Env) (w : Wallet) (s s1 : World) (hd : s.dbb = true)
    (h : sweepWallet env w s = .ok () s1) :
    s1.dbb = true ∧ ∃ evs r, s1.log = s.log ++ evs ∧ gets evs = [tokenListURL w.address]
      ∧ s1.records = s.records ++ [r] ∧ r.address_id = w.id
      ∧ fetcher env w.address = some r.data := by
  cases hb : fetcher env w.address with
  | none =>
    obtain ⟨evs, hf, -⟩ := sweepWallet_fetch_fails env w hb s
    rw [hf] at h
    simp at h
  | some b =>
    rcases sweepWallet_step env w b hb s hd with
      ⟨s2, evs, hf, -, -, -⟩ | ⟨s2, evs, r, hok, hd2, hlog, hg, hrec, hid, hdata⟩
    · rw [hf] at h
      simp at h
    · rw [hok] at h
      simp only [Outcome.ok.injEq, true_and] at h
      subst h
      exact ⟨hd2, evs, r, hlog, hg, hrec, hid, by rw [hdata]⟩

theorem sweepLoop_ok_inv (env : Env) (ws : List Wallet) (s s1 : World) (hd : s.dbb = true)
    (h : forEach ws (sweepWallet env) s = .ok () s1) :
    ∃ evs new, s1.log = s.log ++ evs
      ∧ gets evs = ws.map (fun w => tokenListURL w.address)
      ∧ s1.records = s.records ++ new
      ∧ new.map (fun r => (r.address_id, some r.data))
          = ws.map (fun w => (w.id, fetcher env w.address)) := by
  induction ws generalizing s with
  | nil =>
    simp only [forEach_nil, Outcome.ok.injEq, true_and] at h
    subst h
    exact ⟨[], [], by simp, rfl, by simp, rfl⟩
  | cons w ws ih =>
    simp only [forEach_cons, bind_apply] at h
    cases hw : sweepWallet env w s with
    | fatal s2 => rw [hw] at h; simp at h
    | panic s2 => rw [hw] at h; simp at h
    | ok u s2 =>
      rw [hw] at h
      obtain ⟨hd2, evs, r, hlog, hg, hrec, hid, hdata⟩ := sweepWallet_ok_inv env w s s2 hd hw
      obtain ⟨evs1, new, hlog1, hg1, hrec1, hmap⟩ := ih s2 hd2 h
      refine ⟨evs ++ evs1, r :: new, by simp [hlog1, hlog], by simp [gets_append, hg, hg1],
        by simp [hrec1, hrec], ?_⟩
      simp [hmap, hid, hdata]

theorem sweep_ok_inv (env : Env) (s s1 : World)
    (h : getDebankDataForAllWallets env s = .ok () s1) :
    ∃ ws s0 evs new, getWallets env s = .ok ws s0
      ∧ s1.log = s0.log ++ evs
      ∧ gets evs = ws.map (fun w => tokenListURL w.address)
      ∧ s1.records = s.records ++ new
      ∧ new.map (fun r => (r.address_id, some r.data))
          = ws.map (fun w => (w.id, fetcher env w.address)) := by
  simp only [getDebankDataForAllWallets, bind_apply] at h
  cases hw : getWallets env s with
  | fatal s0 => rw [hw] at h; simp at h
  | panic s0 => rw [hw] at h; simp at h
  | ok ws s0 =>
    rw [hw] at h
    have hd := getWallets_ok_dbb env s s0 ws hw
    obtain ⟨evs, new, hlog, hg, hrec, hmap⟩ := sweepLoop_ok_inv env ws s0 s1 hd h
    have hsame : s0.records = s.records := by
      have := pres_getWallets recordsSame_bootClosed.toClosed env
        (pres_getDB recordsSame_bootClosed env) s
      rw [hw] at this
      exact this
    exact ⟨ws, s0, evs, new, rfl, hlog, hg, by rw [hrec, hsame], hmap⟩

/-! ## Errors end the operation -/

theorem quiet_nil : Quiet [] := by
  intro e he
  simp at he

theorem quiet_append {a b : List Event} (ha : Quiet a) (hb : Quiet b) : Quiet (a ++ b) := by
  intro e he
  rcases List.mem_append.mp he with h | h
  · exact ha e h
  · exact hb e h

theorem quiet_single_ok (c : Call) : Quiet [⟨c, false⟩] := by
  intro e he
  simp at he
  subst he
  simp

theorem quiet_single_stat (b : Bool) : Quiet [⟨.stat, b⟩] := by
  intro e he
  simp at he
  subst he
  simp

theorem quiet_single_scan (b : Bool) : Quiet [⟨.scan, b⟩] := by
  intro e he
  simp at he
  subst he
  simp

theorem failStop_after {α : Type} {s s1 : World} {evs : List Event} (o : Outcome α)
    (hlog : s1.log = s.log ++ evs) (hq : Quiet evs) (h : FailStop s1 o) : FailStop s o := by
  cases o with
  | ok a s2 =>
    obtain ⟨evs1, h1, hq1⟩ := h
    exact ⟨evs ++ evs1, by simp [h1, hlog], quiet_append hq hq1⟩
  | fatal s2 =>
    obtain ⟨evs1, c, h1, hq1, hc⟩ := h
    exact ⟨evs ++ evs1, c, by simp [h1, hlog], quiet_append hq hq1, hc⟩
  | panic s2 =>
    obtain ⟨evs1, h1, hq1⟩ := h
    exact ⟨evs ++ evs1, by simp [h1, hlog], quiet_append hq hq1⟩

theorem fs_pure {α : Type} (a : α) : FS (pure a : M α) :=
  fun _ => ⟨[], by simp [pure_apply], quiet_nil⟩

theorem fs_bind {α β : Type} {f : M α} {g : α → M β} (hf : FS f) (hg : ∀ a, FS (g a)) :
    FS (f >>= g) := by
  intro s
  have h := hf s
  rw [bind_apply]
  cases hfs : f s with
  | ok a s1 =>
    rw [hfs] at h
    obtain ⟨evs, hlog, hq⟩ := h
    exact failStop_after _ hlog hq (hg a s1)
  | fatal s1 => rw [hfs] at h; exact h
  | panic s1 => rw [hfs] at h; exact h

theorem fs_forEach {α : Type} (xs : List α) {f : α → M Unit} (hf : ∀ x, FS (f x)) :
    FS (forEach xs f) := by
  induction xs with
  | nil => exact fs_pure ()
  | cons x xs ih =>
    rw [forEach_cons]
    exact fs_bind (hf x) fun _ => ih

theorem fs_write (chunk : String) : FS (write chunk) :=
  fun _ => ⟨[], by simp [write], quiet_nil⟩

theorem fs_timeNow (env : Env) : FS (timeNow env) :=
  fun _ => ⟨[⟨.now, false⟩], rfl, quiet_single_ok _⟩

theorem fs_rowsScan (b : Bool) : FS (rowsScan b) :=
  fun _ => ⟨[⟨.scan, b⟩], rfl, quiet_single_scan b⟩

theorem fs_osStat (env : Env) : FS (osStat env) := by
  intro s
  unfold osStat
  split
  · exact ⟨[⟨.stat, true⟩], rfl, quiet_single_stat _⟩
  · split
    · exact ⟨[⟨.stat, false⟩], rfl, quiet_single_stat _⟩
    · exact ⟨[⟨.stat, true⟩], rfl, quiet_single_stat _⟩

/-- A call that reports its error as a flag, checked by `if err != nil { log.Fatal(err) }`. -/
theorem fs_checked {β : Type} (p : M Bool) (c : Call) (hc : Checked c)
    (hp : ∀ s, ∃ b s1, p s = .ok b s1 ∧ s1.log = s.log ++ [⟨c, b⟩])
    (k : PUnit → M β) (hk : FS (k PUnit.unit)) :
    FS (p >>= fun err => if err = true then (logFatal : M PUnit) >>= k
      else (pure PUnit.unit : M PUnit) >>= k) := by
  intro s
  obtain ⟨b, s1, hps, hlog⟩ := hp s
  rw [bind_apply, hps]
  cases b with
  | true => exact ⟨[], c, by simp [hlog], quiet_nil, hc⟩
  | false =>
    simp only [Bool.false_eq_true, if_false, bind_apply, pure_apply]
    exact failStop_after _ hlog (quiet_single_ok c) (hk s1)

/-- The same when the check ends the function. -/
theorem fs_checkedLast (p : M Bool) (c : Call) (hc : Checked c)
    (hp : ∀ s, ∃ b s1, p s = .ok b s1 ∧ s1.log = s.log ++ [⟨c, b⟩]) :
    FS (p >>= fun err => if err = true then (logFatal : M PUnit)
      else (pure PUnit.unit : M PUnit)) := by
  intro s
  obtain ⟨b, s1, hps, hlog⟩ := hp s
  rw [bind_apply, hps]
  cases b with
  | true => exact ⟨[], c, by simp [hlog], quiet_nil, hc⟩
  | false =>
    simp only [Bool.false_eq_true, if_false, pure_apply]
    exact ⟨[⟨c, false⟩], hlog, quiet_single_ok c⟩

/-- A call that returns a value or an error, checked the same way. -/
theorem fs_matched {γ β : Type} (p : M (Option γ)) (c : Call) (hc : Checked c)
    (hp : ∀ s, ∃ r s1, p s = .ok r s1 ∧ s1.log = s.log ++ [⟨c, r.isNone⟩])
    (k : Option γ → M β) (hnone : k none = logFatal) (hk : ∀ a, FS (k (some a))) :
    FS (p >>= k) := by
  intro s
  obtain ⟨r, s1, hps, hlog⟩ := hp s
  rw [bind_apply, hps]
  cases r with
  | none =>
    simp only [hnone, logFatal]
    exact ⟨[], c, by simpa using hlog, quiet_nil, hc⟩
  | some a =>
    exact failStop_after _ hlog (by simpa using quiet_single_ok c) (hk a s1)

theorem dbExec_reports (env : Env) (c : Call) (run : Store → Option Store) (s : World) :
    ∃ b s1, dbExec env c run s = .ok b s1 ∧ s1.log = s.log ++ [⟨c, b⟩] := by
  unfold dbExec
  split
  · exact ⟨_, _, rfl, rfl⟩
  · split <;> exact ⟨_, _, rfl, rfl⟩

theorem dbQuery_reports {ρ : Type} (env : Env) (c : Call) (run : Store → Option (List ρ))
    (s : World) :
    ∃ r s1, dbQuery env c run s = .ok r s1 ∧ s1.log = s.log ++ [⟨c, r.isNone⟩] := by
  unfold dbQuery
  split
  · exact ⟨_, _, rfl, rfl⟩
  · split <;> exact ⟨_, _, rfl, rfl⟩

theorem rowsClose_reports (env : Env) (s : World) :
    ∃ b s1, rowsClose env s = .ok b s1 ∧ s1.log = s.log ++ [⟨.rowsClose, b⟩] := by
  unfold rowsClose
  split <;> exact ⟨_, _, rfl, rfl⟩

theorem osCreate_reports (env : Env) (s : World) :
    ∃ b s1, osCreate env s = .ok b s1 ∧ s1.log = s.log ++ [⟨.create, b⟩] := by
  unfold osCreate
  split <;> exact ⟨_, _, rfl, rfl⟩

theorem httpGet_reports (env : Env) (url : String) (s : World) :
    ∃ r s1, httpGet env url s = .ok r s1 ∧ s1.log = s.log ++ [⟨.httpGet url, r.isNone⟩] := by
  unfold httpGet
  split <;> exact ⟨_, _, rfl, rfl⟩

theorem readAll_reports (resp : Response) (s : World) :
    ∃ r s1, readAll resp s = .ok r s1 ∧ s1.log = s.log ++ [⟨.readAll, r.isNone⟩] := by
  unfold readAll
  split <;> exact ⟨_, _, rfl, rfl⟩

theorem fs_initDatabase (env : Env) : FS (initDatabase env) := by
  unfold initDatabase
  refine fs_checked _ .createAddress (by simp [Checked]) (dbExec_reports env _ _) _ ?_
  refine fs_checked _ .createResults (by simp [Checked]) (dbExec_reports env _ _) _ ?_
  refine fs_forEach _ fun a => ?_
  exact fs_checkedLast _ (.insertAddress a) (by simp [Checked]) (dbExec_reports env _ _)

theorem fs_statAndCreate (env : Env) : FS (statAndCreate env) := by
  unfold statAndCreate
  refine fs_bind (fs_osStat env) fun st => ?_
  split
  · exact fs_checked _ .create (by simp [Checked]) (osCreate_reports env) _ (fs_pure _)
  · exact fs_pure _

theorem sqlOpen_reports (env : Env) (s : World) :
    ∃ b s1, sqlOpen env s = .ok b s1 ∧ s1.log = s.log ++ [⟨.sqlOpen, b⟩] := by
  unfold sqlOpen
  split <;> exact ⟨_, _, rfl, rfl⟩

theorem fs_openChecked {β : Type} (env : Env) (k : PUnit → M β) (hk : FS (k PUnit.unit)) :
    FS (sqlOpen env >>= fun err => if err = true then (goPanic : M PUnit) >>= k
      else (pure PUnit.unit : M PUnit) >>= k) := by
  intro s
  obtain ⟨b, s1, hps, hlog⟩ := sqlOpen_reports env s
  rw [bind_apply, hps]
  cases b with
  | true => exact ⟨[], by simp [hlog], quiet_nil⟩
  | false =>
    simp only [Bool.false_eq_true, if_false, bind_apply, pure_apply]
    exact failStop_after _ hlog (quiet_single_ok _) (hk s1)

theorem fs_getDB (env : Env) : FS (getDB env) := by
  intro s
  unfold getDB
  split
  · exact ⟨[], by simp, quiet_nil⟩
  · refine fs_bind (fs_statAndCreate env) (fun firstStart => fs_openChecked env _ ?_) s
    cases firstStart
    · exact fs_bind (fs_pure _) fun _ => fs_pure _
    · exact fs_bind (fs_initDatabase env) fun _ => fs_pure _

theorem fs_scanWallets (rows : List AddressRow) (acc : List Wallet) :
    FS (scanWallets rows acc) := by
  induction rows generalizing acc with
  | nil => exact fs_pure _
  | cons r rows ih =>
    unfold scanWallets
    exact fs_bind (fs_rowsScan _) fun _ => ih _

theorem fs_getWallets (env : Env) : FS (getWallets env) := by
  unfold getWallets
  refine fs_bind (fs_getDB env) fun _ =>
    fs_matched _ .selectWallets (by simp [Checked]) (dbQuery_reports env _ _) _ rfl fun rows => ?_
  refine fs_bind (fs_scanWallets _ _) fun ws =>
    fs_checked _ .rowsClose (by simp [Checked]) (rowsClose_reports env) _ (fs_pure _)

theorem fs_getDebankData (env : Env) (address : String) : FS (getDebankData env address) := by
  unfold getDebankData
  refine fs_matched _ (.httpGet (tokenListURL address)) (by simp [Checked])
    (httpGet_reports env _) _ rfl fun resp => ?_
  exact fs_matched _ .readAll (by simp [Checked]) (readAll_reports resp) _ rfl
    fun body => fs_pure _

theorem fs_insertDebankData (env : Env) (id : Nat) (data : String) :
    FS (insertDebankData env id data) := by
  unfold insertDebankData
  refine fs_bind (fs_getDB env) fun _ => fs_bind (fs_timeNow env) fun t => ?_
  exact fs_checkedLast _ (.insertResult data t id) (by simp [Checked]) (dbExec_reports env _ _)

theorem fs_sweepWallet (env : Env) (w : Wallet) : FS (sweepWallet env w) := by
  unfold sweepWallet
  exact fs_bind (fs_getDebankData env _) fun _ => fs_insertDebankData env _ _

theorem fs_sweep (env : Env) : FS (getDebankDataForAllWallets env) := by
  unfold getDebankDataForAllWallets
  exact fs_bind (fs_getWallets env) fun ws => fs_forEach ws (fs_sweepWallet env)

theorem fs_fetch (env : Env) : FS (fetch env) := by
  unfold fetch
  exact fs_bind (fs_sweep env) fun _ => fs_write _

theorem fs_usdRow (env : Env) (row : ReportRow) : FS (usdRow env row) := by
  unfold usdRow
  exact fs_bind (fs_rowsScan _) fun _ => fs_write _

theorem fs_usd (env : Env) : FS (usd env) := by
  unfold usd
  refine fs_bind (fs_getDB env) fun _ =>
    fs_matched _ .selectReport (by simp [Checked]) (dbQuery_reports env _ _) _ rfl fun rows => ?_
  refine fs_bind (fs_write _) fun _ => fs_bind (fs_write _) fun _ =>
    fs_bind (fs_forEach rows (fs_usdRow env)) fun _ =>
    fs_checked _ .rowsClose (by simp [Checked]) (rowsClose_reports env) _ (fs_write _)

/-! ## The claims -/

/-- C1 (as stated, refuted): one wallet with two ingestion records gets two
rows in the report of `usd`, not one. -/
theorem report_has_two_rows_for_one_wallet :
    usd calmEnv (ready true oneRow 1 twoRecords 2 [] [])
      = .ok () (ready true oneRow 1 twoRecords 2
          [⟨.selectReport, false⟩, ⟨.scan, false⟩, ⟨.scan, false⟩, ⟨.rowsClose, false⟩]
          ["<table>", "<tr><th>usd</th><th>address</th><th>created_at</th></tr>",
           "<tr><td>0</td><td>0xA</td><td>later</td></tr>",
           "<tr><td>0</td><td>0xA</td><td>later</td></tr>", "</table>"])
    ∧ sqlSelectReport ⟨some oneRow, 1, some twoRecords, 2⟩
        = some [("0xA", some 1002), ("0xA", some 1009)]
    ∧ oneRow.length = 1 := by
  refine ⟨?_, ?_, rfl⟩
  · decide
  · decide

/-- C1 (amended): the report of `usd` is the left join: it holds, for each
wallet, one row per ingestion record of that wallet, and one row with a NULL
timestamp when the wallet has none.  The number of rows is the sum over the
wallets of `max 1 (number of records of the wallet)`; it is at least the
number of wallets and equals it exactly when no wallet has more than one
record.  `usd` writes one `<tr><td>` chunk per row of the join. -/
theorem report_rows_per_wallet (env : Env) (hnf : NoFault env) (dbb : Bool)
    (rows : List AddressRow) (aseq : Nat) (recs : List ResultRow) (rseq : Nat)
    (log : List Event) (resp : List String) :
    sqlSelectReport ⟨some rows, aseq, some recs, rseq⟩ = some (leftJoin rows recs)
    ∧ (leftJoin rows recs).length = (rows.map fun a => max 1 (recordCount a.id recs)).sum
    ∧ rows.length ≤ (leftJoin rows recs).length
    ∧ ((leftJoin rows recs).length = rows.length ↔ ∀ a ∈ rows, recordCount a.id recs ≤ 1)
    ∧ ∃ evs, usd env (ready dbb rows aseq recs rseq log resp)
        = .ok () (ready true rows aseq recs rseq (log ++ evs)
            (resp ++ ["<table>", header "usd" "address" "created_at"]
              ++ (leftJoin rows recs).map (renderRow env) ++ ["</table>"])) := by
  refine ⟨rfl, leftJoin_length rows recs, ?_, ?_, usd_ok env hnf dbb rows aseq recs rseq log resp⟩
  · rw [leftJoin_length]
    exact sum_max_one_ge rows recs
  · rw [leftJoin_length]
    exact sum_max_one_eq_iff rows recs

/-- C1 (amended), at one wallet with two records. -/
theorem report_rows_per_wallet_witness :
    NoFault calmEnv ∧ (leftJoin oneRow twoRecords).length = 2 :=
  ⟨fun _ => rfl,
   ((report_rows_per_wallet calmEnv (fun _ => rfl) true oneRow 1 twoRecords 2 [] []).2.1).trans
     (by decide)⟩

/-- C2: on a store with `W` wallets, when no file or database call fails and
the fetcher succeeds on every wallet, one sweep returns and leaves the record
table as it was with exactly `W` records appended, and `K` sweeps in a row
return and leave it with exactly `K * W` records more: nothing is overwritten
and nothing is dropped as a duplicate.  And from every world, under every
behaviour of the surroundings: a sweep that returns (every fetch and every
insert succeeded) has appended exactly one record per wallet of the list
`getWallets` returned. -/
theorem sweep_appends_one_record_per_wallet (env : Env) (hnf : NoFault env)
    (rows : List AddressRow)
    (hf : ∀ w ∈ walletsOf rows, (fetcher env w.address).isSome = true) (K : Nat)
    (dbb : Bool) (aseq : Nat) (recs : List ResultRow) (rseq : Nat)
    (log : List Event) (resp : List String) :
    (∃ s1 new, getDebankDataForAllWallets env (ready dbb rows aseq recs rseq log resp) = .ok () s1
      ∧ s1.records = recs ++ new ∧ new.length = rows.length
      ∧ s1.records.length = recs.length + rows.length)
    ∧ (∃ sK new, sweeps env K (ready dbb rows aseq recs rseq log resp) = .ok () sK
      ∧ sK.records = recs ++ new ∧ new.length = K * rows.length
      ∧ sK.records.length = recs.length + K * rows.length)
    ∧ ∀ (any : Env) (s s1 : World), getDebankDataForAllWallets any s = .ok () s1 →
        ∃ ws s0 new, getWallets any s = .ok ws s0 ∧ s1.records = s.records ++ new
          ∧ new.length = ws.length
          ∧ s1.records.length = s.records.length + ws.length := by
  refine ⟨?_, ?_, ?_⟩
  · obtain ⟨new, rseq1, evs, h, hmap, -, -⟩ := sweep_ok env hnf rows hf dbb aseq recs rseq log resp
    have hnew : new.length = rows.length := by
      have := congrArg List.length hmap
      simpa [walletsOf] using this
    exact ⟨_, new, h, rfl, hnew, by simp [ready, World.records, World.store, hnew]⟩
  · obtain ⟨new, rseq1, evs, h, hlen⟩ := sweeps_ok env hnf rows hf K dbb aseq recs rseq log resp
    exact ⟨_, new, h, rfl, hlen, by simp [ready, World.records, World.store, hlen]⟩
  · intro any s s1 h
    obtain ⟨ws, s0, evs, new, hw, -, -, hrec, hmap⟩ := sweep_ok_inv any s s1 h
    have hnew : new.length = ws.length := by
      have := congrArg List.length hmap
      simpa using this
    exact ⟨ws, s0, new, hw, hrec, hnew, by simp [hrec, hnew]⟩

/-- C2, at three wallets, two earlier records and three sweeps whose fetches
all return the same body. -/
theorem sweep_appends_one_record_per_wallet_witness :
    NoFault calmEnv ∧ (∀ w ∈ walletsOf threeRows, (fetcher calmEnv w.address).isSome = true)
    ∧ ∃ sK new, sweeps calmEnv 3 (ready false threeRows 3 twoRecords 2 [] []) = .ok () sK
      ∧ sK.records = twoRecords ++ new ∧ new.length = 3 * threeRows.length
      ∧ sK.records.length = twoRecords.length + 3 * threeRows.length :=
  ⟨fun _ => rfl, fun _ _ => rfl,
   (sweep_appends_one_record_per_wallet calmEnv (fun _ => rfl) threeRows (fun _ _ => rfl) 3
     false 3 twoRecords 2 [] []).2.1⟩

/-- C3: from an absent store, when no file or database call fails, the first
`getDB` returns after inserting the eight seed addresses in source order, and
any number of further `getDB` calls, each with or without a restart of the
process before it, return and insert nothing: table `address` holds exactly
the eight seed addresses, in seed order, after the first call and after the
last. -/
theorem bootstrap_is_idempotent (env : Env) (hnf : NoFault env) (rs : List Bool)
    (log : List Event) (resp : List String) :
    ∃ s1 sN, getDB env (absent log resp) = .ok () s1
      ∧ getDBs env rs s1 = .ok () sN
      ∧ (∀ r, getDBs env (r :: rs) (absent log resp) = .ok () sN)
      ∧ s1.store.address = some seedRows
      ∧ sN.store.address = some seedRows
      ∧ seedRows.map AddressRow.address = addresses
      ∧ seedRows.length = 8
      ∧ addressInserts s1.log = addressInserts log ++ addresses
      ∧ addressInserts sN.log = addressInserts s1.log := by
  obtain ⟨evs, h1, hi⟩ := getDB_boot env hnf log resp
  obtain ⟨evs1, dbb1, hN, hi1⟩ :=
    getDBs_again env hnf rs true ⟨some seedRows, 8, some [], 0⟩ (log ++ evs) resp
  refine ⟨_, _, h1, hN, ?_, rfl, rfl, rfl, rfl, ?_, ?_⟩
  · intro r
    have hr : (if r = true then restart (absent log resp) else absent log resp)
        = absent log resp := by cases r <;> rfl
    simp only [getDBs, hr, bind_apply, h1]
    exact hN
  · simp [ready, addressInserts_append, hi]
  · simp [ready, addressInserts_append, hi, hi1]

/-- C3, at four calls of which the second and the fourth follow a restart. -/
theorem bootstrap_is_idempotent_witness :
    NoFault calmEnv ∧ ∃ sN, getDBs calmEnv [false, true, false, true] (absent [] []) = .ok () sN
      ∧ sN.store.address = some seedRows ∧ addressInserts sN.log = addresses := by
  refine ⟨fun _ => rfl, ?_⟩
  obtain ⟨s1, sN, -, -, h, -, hN, -, -, h1, h2⟩ :=
    bootstrap_is_idempotent calmEnv (fun _ => rfl) [true, false, true] [] []
  exact ⟨sN, h false, hN, by rw [h2, h1]; rfl⟩

/-- C4: let `getWallets` return `w_1 .. w_W`, let the fetcher succeed on
`w_1 .. w_(i-1)` and fail on `w_i`.  Then the sweep ends in `log.Fatal`.  The
fetcher was called for an initial part of `w_1 .. w_i`, in list order, and
never again after that, and one record each was appended for an initial part
of `w_1 .. w_(i-1)` and for no other wallet (the initial parts are shorter
than `i` when an insert failed first).  So no fetch and no record belongs to
`w_(i+1) .. w_W`, and the number of records of each of them whose key differs
from the keys of `w_1 .. w_(i-1)` is what it was before the sweep. -/
theorem sweep_stops_at_first_failed_fetch (env : Env) (s s0 : World)
    (pre : List Wallet) (wi : Wallet) (post : List Wallet)
    (hws : getWallets env s = .ok (pre ++ wi :: post) s0)
    (hpre : ∀ w ∈ pre, (fetcher env w.address).isSome = true)
    (hwi : fetcher env wi.address = none) :
    ∃ s1 k evs new, k ≤ pre.length
      ∧ getDebankDataForAllWallets env s = .fatal s1
      ∧ s0.records = s.records
      ∧ s1.log = s0.log ++ evs
      ∧ gets evs = ((pre ++ [wi]).take (k + 1)).map (fun w => tokenListURL w.address)
      ∧ s1.records = s0.records ++ new
      ∧ new.map (fun r => (r.address_id, some r.data))
          = (pre.take k).map (fun w => (w.id, fetcher env w.address))
      ∧ ∀ w ∈ post, w.id ∉ pre.map Wallet.id →
          recordCount w.id s1.records = recordCount w.id s.records := by
  have hd := getWallets_ok_dbb env s s0 _ hws
  obtain ⟨s1, k, evs, new, hk, h, hlog, hg, hrec, hmap⟩ :=
    sweepLoop_failfast env pre wi post hpre hwi s0 hd
  have hsame : s0.records = s.records := by
    have := pres_getWallets recordsSame_bootClosed.toClosed env
      (pres_getDB recordsSame_bootClosed env) s
    rw [hws] at this
    exact this
  refine ⟨s1, k, evs, new, hk, ?_, hsame, hlog, hg, hrec, hmap, ?_⟩
  · simp [getDebankDataForAllWallets, bind_apply, hws, h]
  · intro w _ hid
    have hnone : new.filter (fun r => r.address_id = w.id) = [] := by
      rw [List.filter_eq_nil_iff]
      intro r hr hrid
      have hmem : (r.address_id, some r.data) ∈ new.map (fun r => (r.address_id, some r.data)) :=
        List.mem_map.mpr ⟨r, hr, rfl⟩
      rw [hmap] at hmem
      obtain ⟨v, hv, hveq⟩ := List.mem_map.mp hmem
      have hv1 : v ∈ pre := List.mem_of_mem_take hv
      have : v.id = r.address_id := congrArg Prod.fst hveq
      apply hid
      have hrid1 : r.address_id = w.id := by simpa using hrid
      exact List.mem_map.mpr ⟨v, hv1, this.trans hrid1⟩
    simp [recordCount, hrec, hsame, List.filter_append, hnone]

/-- C4, at three wallets where the fetch for the second one fails. -/
theorem sweep_stops_at_first_failed_fetch_witness :
    ∃ s0 s1, getWallets failEnv (ready true threeRows 3 [] 0 [] [])
        = .ok ([⟨1, "0xA"⟩] ++ ⟨2, "0xB"⟩ :: [⟨3, "0xC"⟩]) s0
      ∧ (∀ w ∈ [(⟨1, "0xA"⟩ : Wallet)], (fetcher failEnv w.address).isSome = true)
      ∧ fetcher failEnv "0xB" = none
      ∧ getDebankDataForAllWallets failEnv (ready true threeRows 3 [] 0 [] []) = .fatal s1
      ∧ recordCount 3 s1.records = 0 := by
  obtain ⟨evs, h0, -, -⟩ := getWallets_ok failEnv (fun _ => rfl) true threeRows 3 (some []) 0 [] []
  have h0a : getWallets failEnv (ready true threeRows 3 [] 0 [] [])
      = .ok ([⟨1, "0xA"⟩] ++ ⟨2, "0xB"⟩ :: [⟨3, "0xC"⟩]) ⟨true, some ⟨some threeRows, 3, some [], 0⟩,
          [] ++ evs, []⟩ := h0
  have hpre : ∀ w ∈ [(⟨1, "0xA"⟩ : Wallet)], (fetcher failEnv w.address).isSome = true := by
    intro w hw
    simp only [List.mem_singleton] at hw
    subst hw
    decide
  have hwi : fetcher failEnv "0xB" = none := by decide
  obtain ⟨s1, k, evs1, new, -, h, -, -, -, -, -, hc⟩ :=
    sweep_stops_at_first_failed_fetch failEnv _ _ [⟨1, "0xA"⟩] ⟨2, "0xB"⟩ [⟨3, "0xC"⟩] h0a hpre hwi
  exact ⟨_, s1, h0a, hpre, hwi, h, hc ⟨3, "0xC"⟩ (List.mem_singleton.mpr rfl) (by decide)⟩

/-- C5: on a store with both tables, when no file or database call fails and
the fetcher succeeds on every wallet, `getWallets` returns the wallet list
`w_1 .. w_W` and the sweep returns; the records it appended are, in this
order, one per wallet `w_j` with `address_id = w_j.id` and `data` the body the
fetcher returned for `w_j.address`; the wallet list was queried once, and
`http.Get` was called once per wallet, in list order, with the URL of its
address.  And from every world, under every behaviour of the surroundings: a
sweep that returns has appended exactly these records, in this order, and has
made exactly these `http.Get` calls after `getWallets` returned. -/
theorem sweep_records_follow_wallet_list (env : Env) (hnf : NoFault env)
    (rows : List AddressRow)
    (hf : ∀ w ∈ walletsOf rows, (fetcher env w.address).isSome = true)
    (dbb : Bool) (aseq : Nat) (recs : List ResultRow) (rseq : Nat)
    (log : List Event) (resp : List String) :
    (∃ s0 s1 new evs,
      getWallets env (ready dbb rows aseq recs rseq log resp) = .ok (walletsOf rows) s0
      ∧ getDebankDataForAllWallets env (ready dbb rows aseq recs rseq log resp) = .ok () s1
      ∧ s1.records = recs ++ new
      ∧ new.map (fun r => (r.address_id, some r.data))
          = (walletsOf rows).map (fun w => (w.id, fetcher env w.address))
      ∧ s1.log = log ++ evs
      ∧ gets evs = (walletsOf rows).map (fun w => tokenListURL w.address)
      ∧ walletReads evs = 1)
    ∧ ∀ (any : Env) (s s1 : World), getDebankDataForAllWallets any s = .ok () s1 →
        ∃ ws s0 evs new, getWallets any s = .ok ws s0
          ∧ s1.log = s0.log ++ evs
          ∧ gets evs = ws.map (fun w => tokenListURL w.address)
          ∧ s1.records = s.records ++ new
          ∧ new.map (fun r => (r.address_id, some r.data))
              = ws.map (fun w => (w.id, fetcher any w.address)) := by
  refine ⟨?_, fun any s s1 h => sweep_ok_inv any s s1 h⟩
  obtain ⟨evs0, h0, -, -⟩ := getWallets_ok env hnf dbb rows aseq (some recs) rseq log resp
  obtain ⟨new, rseq1, evs, h, hmap, hg, hr⟩ :=
    sweep_ok env hnf rows hf dbb aseq recs rseq log resp
  exact ⟨_, _, new, evs, h0, h, rfl, hmap, rfl, hg, hr⟩

/-- C5, at three wallets. -/
theorem sweep_records_follow_wallet_list_witness :
    NoFault calmEnv ∧ (∀ w ∈ walletsOf threeRows, (fetcher calmEnv w.address).isSome = true)
    ∧ ∃ s1 new evs,
      getDebankDataForAllWallets calmEnv (ready true threeRows 3 [] 0 [] []) = .ok () s1
      ∧ s1.records = [] ++ new
      ∧ new.map (fun r => (r.address_id, some r.data)) = [(1, some "{}"), (2, some "{}"), (3, some "{}")]
      ∧ gets evs = [tokenListURL "0xA", tokenListURL "0xB", tokenListURL "0xC"] := by
  refine ⟨fun _ => rfl, fun _ _ => rfl, ?_⟩
  obtain ⟨s0, s1, new, evs, -, h, hrec, hmap, -, hg, -⟩ :=
    (sweep_records_follow_wallet_list calmEnv (fun _ => rfl) threeRows (fun _ _ => rfl)
      true 3 [] 0 [] []).1
  exact ⟨s1, new, evs, h, hrec, hmap, hg⟩

/-- C6: every operation (`getDB` with or without the bootstrap, `initDatabase`,
`getWallets`, `getDebankData`, `insertDebankData`, the sweep, the `fetch`
handler, the `usd` handler, a restart), from every world, under every
behaviour of the surroundings and however it ends, leaves the record table
with the old table as an initial part: every old record is still there,
unchanged and in place.  Hence the records of each single wallet only grow at
the end, too.  `getDB`, `getWallets` and `usd` leave the record table exactly
as it was. -/
theorem records_are_append_only (env : Env) (s : World) (address data : String) (id : Nat) :
    RecordsKept s (getDB env s).state ∧ RecordsKept s (initDatabase env s).state
    ∧ RecordsKept s (getWallets env s).state
    ∧ RecordsKept s (getDebankData env address s).state
    ∧ RecordsKept s (insertDebankData env id data s).state
    ∧ RecordsKept s (getDebankDataForAllWallets env s).state
    ∧ RecordsKept s (fetch env s).state ∧ RecordsKept s (usd env s).state
    ∧ RecordsKept s (restart s)
    ∧ (getDB env s).state.records = s.records ∧ (getWallets env s).state.records = s.records
    ∧ (usd env s).state.records = s.records := by
  have hB := recordsGrow_bootClosed
  have hC := hB.toClosed
  have hW := recordsGrow_writeClosed
  have hI := recordsGrow_insertClosed
  have hdb := pres_getDB hB env
  have key : ∀ s1, RecordsGrow s s1 → RecordsKept s s1 :=
    fun s1 h => ⟨h, fun _ => List.IsPrefix.filter _ h⟩
  exact ⟨key _ (hdb s), key _ (pres_initDatabase hB.toInitClosed env s),
    key _ (pres_getWallets hC env hdb s), key _ (pres_getDebankData hC env address s),
    key _ (pres_insertDebankData hC hI env hdb id data s), key _ (pres_sweep hC hI env hdb s),
    key _ (pres_fetch hC hI hW env hdb s), key _ (pres_usd hC hW env hdb s),
    key _ (hB.onOpen s false), pres_getDB recordsSame_bootClosed env s,
    pres_getWallets recordsSame_bootClosed.toClosed env (pres_getDB recordsSame_bootClosed env) s,
    pres_usd recordsSame_bootClosed.toClosed recordsSame_writeClosed env
      (pres_getDB recordsSame_bootClosed env) s⟩

/-- C7: in every world reached from an absent store by any sequence of
`getDB`, sweeps, `fetch` and `usd` requests and restarts, under every
behaviour of the surroundings and however each of them ends, no two rows of
table `address` hold the same address.  The eight seed addresses are pairwise
distinct, so when no file or database call fails the bootstrap returns with
all eight inserted.  Once the store file exists or the handle is cached, no
operation changes table `address`, and a restart does not touch the store. -/
theorem wallet_addresses_stay_unique (env : Env) (ops : List Op) (calm : Env)
    (hnf : NoFault calm) (log : List Event) (resp : List String) :
    UniqueAddresses (runOps env ops (absent log resp))
    ∧ addresses.Nodup
    ∧ (∃ s1, getDB calm (absent log resp) = .ok () s1 ∧ s1.wallets = seedRows
        ∧ addressInserts s1.log = addressInserts log ++ addresses)
    ∧ (∀ s, Started s → ∀ s1 ∈ [(getDB env s).state, (getWallets env s).state,
        (getDebankDataForAllWallets env s).state, (fetch env s).state, (usd env s).state],
        Started s1 ∧ s1.store.address = s.store.address)
    ∧ ∀ s, (restart s).store = s.store := by
  have hB := keepsUnique_bootClosed
  have hC := hB.toClosed
  have hW := keepsUnique_writeClosed
  have hI := keepsUnique_insertClosed
  have hdb := pres_getDB hB env
  have hstep : ∀ (o : Op) (s : World), UniqueAddresses s → UniqueAddresses (o.run env s) := by
    intro o s hs
    cases o with
    | getDB => exact hdb s hs
    | sweep => exact pres_sweep hC hI env hdb s hs
    | fetch => exact pres_fetch hC hI hW env hdb s hs
    | usd => exact pres_usd hC hW env hdb s hs
    | restart => exact hB.onOpen s false hs
  have hall : ∀ (ops : List Op) (s : World), UniqueAddresses s →
      UniqueAddresses (runOps env ops s) := by
    intro ops
    induction ops with
    | nil => exact fun s hs => hs
    | cons o ops ih => exact fun s hs => ih _ (hstep o s hs)
  refine ⟨hall ops _ ?_, by decide, ?_, ?_, fun _ => rfl⟩
  · simp [UniqueAddresses, World.wallets, absent, World.store, Store.empty]
  · obtain ⟨evs, h, hi⟩ := getDB_boot calm hnf log resp
    exact ⟨_, h, rfl, by simp [ready, addressInserts_append, hi]⟩
  · intro s hs s1 hs1
    have hF := addressFrozen_closed
    have hFW := addressFrozen_writeClosed
    have hFI := addressFrozen_insertClosed
    have hFdb := addressFrozen_getDB env
    simp only [List.mem_cons, List.mem_singleton, List.not_mem_nil, or_false] at hs1
    rcases hs1 with h | h | h | h | h <;> subst h
    · exact hFdb s hs
    · exact pres_getWallets hF env hFdb s hs
    · exact pres_sweep hF hFI env hFdb s hs
    · exact pres_fetch hF hFI hFW env hFdb s hs
    · exact pres_usd hF hFW env hFdb s hs

/-- C7, at a bootstrap, a restart, a sweep and a report. -/
theorem wallet_addresses_stay_unique_witness :
    NoFault calmEnv
    ∧ UniqueAddresses (runOps failEnv [.getDB, .restart, .sweep, .usd] (absent [] [])) :=
  ⟨fun _ => rfl,
   (wallet_addresses_stay_unique failEnv [.getDB, .restart, .sweep, .usd] calmEnv
     (fun _ => rfl) [] []).1⟩

/-- C8: on a store with `W` wallets, when no file or database call fails and
the fetcher succeeds on every wallet, the `fetch` handler returns after
exactly one sweep (the wallet list was queried once), the response body is
exactly `"OK\n"`, and the record table holds `W` records more.  Under every
behaviour of the surroundings, when the sweep does not return (it ends in
`log.Fatal` or in a panic) the handler ends the same way in the same world
and nothing was written to the response; when the sweep returns, the handler
returns in the same world with `"OK\n"` as the one chunk written. -/
theorem fetch_runs_one_sweep_then_writes_OK (calm : Env) (hnf : NoFault calm)
    (rows : List AddressRow)
    (hf : ∀ w ∈ walletsOf rows, (fetcher calm w.address).isSome = true)
    (dbb : Bool) (aseq : Nat) (recs : List ResultRow) (rseq : Nat) (log : List Event)
    (env : Env) :
    (∃ s0 s1 evs,
      getDebankDataForAllWallets calm (ready dbb rows aseq recs rseq log []) = .ok () s0
      ∧ fetch calm (ready dbb rows aseq recs rseq log []) = .ok () s1
      ∧ s1 = { s0 with resp := ["OK\n"] }
      ∧ String.join s1.resp = "OK\n"
      ∧ s1.records.length = recs.length + rows.length
      ∧ s1.log = log ++ evs ∧ walletReads evs = 1)
    ∧ (∀ s s0, getDebankDataForAllWallets env s = .ok () s0 →
        fetch env s = .ok () { s0 with resp := s.resp ++ ["OK\n"] })
    ∧ ∀ s, (∀ s0, getDebankDataForAllWallets env s ≠ .ok () s0) →
        fetch env s = getDebankDataForAllWallets env s ∧ (fetch env s).state.resp = s.resp := by
  refine ⟨?_, ?_, ?_⟩
  · obtain ⟨new, rseq1, evs, h, hmap, -, hr⟩ :=
      sweep_ok calm hnf rows hf dbb aseq recs rseq log []
    have hnew : new.length = rows.length := by
      have := congrArg List.length hmap
      simpa [walletsOf] using this
    refine ⟨_, _, evs, h, ?_, rfl, ?_, ?_, rfl, hr⟩
    · simp only [fetch, bind_apply, h, write]
      rfl
    · show String.join ["OK\n"] = "OK\n"
      decide
    · simp [ready, World.records, World.store, hnew]
  · intro s s0 h
    have hresp : s0.resp = s.resp := by
      have := pres_sweep respSame_bootClosed.toClosed respSame_insertClosed env
        (pres_getDB respSame_bootClosed env) s
      rw [h] at this
      exact this
    simp only [fetch, bind_apply, h, write, hresp]
  · intro s hne
    have hsame : fetch env s = getDebankDataForAllWallets env s := by
      simp only [fetch, bind_apply]
      cases h : getDebankDataForAllWallets env s with
      | ok u s0 => exact absurd h (hne s0)
      | fatal s0 => rfl
      | panic s0 => rfl
    refine ⟨hsame, ?_⟩
    rw [hsame]
    exact pres_sweep respSame_bootClosed.toClosed respSame_insertClosed env
      (pres_getDB respSame_bootClosed env) s

/-- C8, at three wallets and two earlier records. -/
theorem fetch_runs_one_sweep_then_writes_OK_witness :
    NoFault calmEnv ∧ (∀ w ∈ walletsOf threeRows, (fetcher calmEnv w.address).isSome = true)
    ∧ ∃ s1, fetch calmEnv (ready false threeRows 3 twoRecords 2 [] []) = .ok () s1
      ∧ String.join s1.resp = "OK\n" ∧ s1.records.length = 5 := by
  refine ⟨fun _ => rfl, fun _ _ => rfl, ?_⟩
  obtain ⟨s0, s1, evs, -, h, -, hb, hlen, -, -⟩ :=
    (fetch_runs_one_sweep_then_writes_OK calmEnv (fun _ => rfl) threeRows (fun _ _ => rfl)
      false 3 twoRecords 2 [] calmEnv).1
  exact ⟨s1, h, hb, hlen⟩

/-- C9 (as stated, refuted): two errors after which the operation goes on.
The scan of the NULL timestamp of a wallet without records returns an error,
and `usd` writes the row with the zero time and returns.  `os.Stat` returns
an error other than "does not exist", and `getDB` opens the handle and
returns. -/
theorem scan_and_stat_errors_are_not_fatal :
    usd calmEnv (ready true oneRow 1 [] 0 [] [])
      = .ok () (ready true oneRow 1 [] 0
          [⟨.selectReport, false⟩, ⟨.scan, true⟩, ⟨.rowsClose, false⟩]
          ["<table>", "<tr><th>usd</th><th>address</th><th>created_at</th></tr>",
           "<tr><td>0</td><td>0xA</td><td>Monday, 01-Jan-01 00:00:00 UTC</td></tr>", "</table>"])
    ∧ getDB statFaultEnv (ready false oneRow 1 [] 0 [] [])
      = .ok () (ready true oneRow 1 [] 0 [⟨.stat, true⟩, ⟨.sqlOpen, false⟩] []) := by
  constructor <;> decide

/-- C9 (amended): from every world and under every behaviour of the
surroundings, each of `getDB`, `initDatabase`, `getWallets`, `getDebankData`,
`insertDebankData`, the sweep, `fetch` and `usd` ends as follows.  An error
returned by `os.Create`, `db.Exec`, `db.Query`, `rows.Close`, `http.Get` or
the read of the body is the last call the operation makes, and the operation
ends in `log.Fatal`; an error returned by `sql.Open` is the last call, and the
operation ends in a panic.  An operation that returns has seen no error except
from `os.Stat` and `rows.Scan`, whose errors never end it. -/
theorem errors_end_the_operation (env : Env) (s : World) (address data : String) (id : Nat) :
    FailStop s (getDB env s) ∧ FailStop s (initDatabase env s) ∧ FailStop s (getWallets env s)
    ∧ FailStop s (getDebankData env address s) ∧ FailStop s (insertDebankData env id data s)
    ∧ FailStop s (getDebankDataForAllWallets env s) ∧ FailStop s (fetch env s)
    ∧ FailStop s (usd env s) :=
  ⟨fs_getDB env s, fs_initDatabase env s, fs_getWallets env s, fs_getDebankData env address s,
   fs_insertDebankData env id data s, fs_sweep env s, fs_fetch env s, fs_usd env s⟩

/-- C10: when no file or database call fails, `usd` returns, and for every
wallet without ingestion records the response holds the chunk
`<tr><td>0</td><td>ADDRESS</td><td>T</td></tr>` with the address of the wallet
and `T` the RFC850 text of the zero time: the scan of the NULL returns an
error and leaves `createdAt` at its zero value.  The loop body writes the very
same chunk for a row of that wallet whose `create_at` is the zero time. -/
theorem null_timestamp_renders_as_zero_time (env : Env) (hnf : NoFault env) (dbb : Bool)
    (rows : List AddressRow) (aseq : Nat) (recs : List ResultRow) (rseq : Nat)
    (log : List Event) (resp : List String) (a : AddressRow) (ha : a ∈ rows)
    (h0 : recordCount a.id recs = 0) :
    (∃ s1 before after, usd env (ready dbb rows aseq recs rseq log resp) = .ok () s1
      ∧ s1.resp = resp ++ before
          ++ ["<tr><td>0</td><td>" ++ a.address ++ "</td><td>" ++ env.format zeroTime
              ++ "</td></tr>"] ++ after)
    ∧ scanReport (a.address, none) = (a.address, zeroTime, true)
    ∧ scanReport (a.address, some zeroTime) = (a.address, zeroTime, false)
    ∧ ∀ s, (usdRow env (a.address, none) s).state.resp
        = (usdRow env (a.address, some zeroTime) s).state.resp := by
  refine ⟨?_, rfl, rfl, fun _ => rfl⟩
  obtain ⟨evs, h⟩ := usd_ok env hnf dbb rows aseq recs rseq log resp
  obtain ⟨l1, l2, hj⟩ := leftJoin_of_no_record rows recs a ha h0
  refine ⟨_, ["<table>", header "usd" "address" "created_at"] ++ l1.map (renderRow env),
    l2.map (renderRow env) ++ ["</table>"], h, ?_⟩
  simp [ready, hj, renderRow, scanReport, tmpl]

/-- C10, at one wallet without records. -/
theorem null_timestamp_renders_as_zero_time_witness :
    NoFault calmEnv ∧ (⟨1, "0xA"⟩ : AddressRow) ∈ oneRow ∧ recordCount 1 [] = 0
    ∧ ∃ s1 before after, usd calmEnv (ready true oneRow 1 [] 0 [] []) = .ok () s1
      ∧ s1.resp = [] ++ before
          ++ ["<tr><td>0</td><td>" ++ "0xA" ++ "</td><td>" ++ calmEnv.format zeroTime
              ++ "</td></tr>"] ++ after :=
  ⟨fun _ => rfl, List.mem_singleton.mpr rfl, rfl,
   (null_timestamp_renders_as_zero_time calmEnv (fun _ => rfl) true oneRow 1 [] 0 [] []
     ⟨1, "0xA"⟩ (List.mem_singleton.mpr rfl) rfl).1⟩

end Midas
